import Mathlib

/-!
# libpkg/pkg.c: package records, archive ingestion, dependency resolution

A shallow embedding of `src/libpkg/pkg.c`.

* A C string is a list of characters (`Text`); an absent (`NULL`) string or
  pointer argument is `none`.
* `struct pkg` is the structure `pkg`.  Functions that only touch the record
  they are handed (accessors, setters, adders) are functions on `pkg`; the
  functions that allocate records or follow record pointers (`pkg_new`,
  `pkg_free`, `pkg_reset`, `pkg_resolvdeps`, `pkg_open`) work on a `Heap` in
  which a record pointer is an index.
* `sbuf` is FreeBSD's string buffer, modelled by its documented interface.
* The dynamic array, the database gateway, the manifest reader and the fetch
  transport live in files of the repository that are not part of `src/`; what
  is assumed of them is stated at each definition.
-/

namespace Libpkg

/-- A C string: the characters before the terminating NUL. -/
abbrev Text := List Char

/-! ## sbuf(9) -/

/-- The state of a `struct sbuf` created by `sbuf_new_auto`: the characters
written so far and the FINISHED flag.  The buffer extends itself, so writes do
not overflow. -/
structure sbuf where
  s_buf : Text
  finished : Bool
deriving DecidableEq, Repr

/-- `sbuf_new_auto()`: an empty buffer that is not finished. -/
def sbuf_new_auto : sbuf :=
  { s_buf := [], finished := false }

/-- `sbuf_clear(s)`: drops the contents and the FINISHED flag. -/
def sbuf_clear (_s : sbuf) : sbuf :=
  { s_buf := [], finished := false }

/-- `sbuf_cat(s, str)`: appends `str` to what the buffer holds. -/
def sbuf_cat (s : sbuf) (str : Text) : sbuf :=
  { s with s_buf := s.s_buf ++ str }

/-- `sbuf_finish(s)`: terminates the string and sets the FINISHED flag. -/
def sbuf_finish (s : sbuf) : sbuf :=
  { s with finished := true }

/-- `sbuf_done(s)`: non-zero exactly when the buffer is finished. -/
def sbuf_done (s : sbuf) : Int :=
  if s.finished then 1 else 0

/-- `sbuf_data(s)`: the string of a finished buffer.  sbuf(9) defines the
result only for a finished buffer; on an unfinished one there is no string to
read, which is the "unset" reading of a text field (`none`). -/
def sbuf_data (s : sbuf) : Option Text :=
  if s.finished then some s.s_buf else none

/-! ## The dynamic array (util.c, not under src/) -/

/-- Modelled from the spec: `struct array` is declared in a header that is not
under src/.  pkg.c reads its members `data` and `len`; a record obtained from
`calloc` has `data == NULL` and `len == 0` (`data = none`), an initialised
array holds its elements in insertion order.  The capacity is a performance
hint and is not part of the state. -/
structure array (α : Type) where
  data : Option (List α)
deriving DecidableEq, Repr

/-- The member `len`: the number of elements stored (0 while `data` is NULL). -/
def array.len {α : Type} (a : array α) : Nat :=
  match a.data with
  | none => 0
  | some l => l.length

/-- The elements stored, in insertion order (none while `data` is NULL). -/
def array.elems {α : Type} (a : array α) : List α :=
  match a.data with
  | none => []
  | some l => l

/-- Modelled from the spec: `array_init` is not under src/.  Initialisation is
idempotent: an uninitialised collection becomes an empty initialised one, an
initialised one is left as it is.  The capacity `_c` is only a hint. -/
def array_init {α : Type} (a : array α) (_c : Nat) : array α :=
  match a.data with
  | none => { data := some [] }
  | some _ => a

/-- Modelled from the spec: `array_append` is not under src/.  Appends one
element at the end of an initialised collection.  pkg.c calls `array_init` on
the collection before every append, so the uninitialised case is not reached
from pkg.c; the model leaves such an array as it is. -/
def array_append {α : Type} (a : array α) (d : α) : array α :=
  match a.data with
  | none => a
  | some l => { data := some (l ++ [d]) }

/-- Modelled from the spec: `array_reset` is not under src/.  Releases the
elements (the destructor calls are made by the caller of this function in the
model, see `array_release`) and re-initialises the collection to empty; an
uninitialised collection stays uninitialised. -/
def array_reset {α : Type} (a : array α) : array α :=
  match a.data with
  | none => a
  | some _ => { data := some [] }

/-! ## Records -/

/-- Modelled from the spec: `pkg_t` is declared in pkg.h, which is not under
src/.  pkg.c names `PKG_FILE`, `PKG_INSTALLED` and `PKG_NOTFOUND`; the spec
calls them FromArchive, Installed and NotFound and says that a newly created
record is in the FromArchive-eligible default state, so `PKG_FILE` is taken to
be the value 0 that `calloc` leaves. -/
inductive pkg_t where
  | PKG_FILE
  | PKG_INSTALLED
  | PKG_NOTFOUND
deriving DecidableEq, Repr

/-- Modelled from the spec: `struct pkg_conflict` (not under src/) holds a glob
pattern in an sbuf. -/
structure pkg_conflict where
  glob : sbuf
deriving DecidableEq, Repr

/-- Modelled from the spec: `struct pkg_file` (not under src/) holds a path and
a checksum in two fixed-size character arrays. -/
structure pkg_file where
  path : Text
  sha256 : Text
deriving DecidableEq, Repr

/-- The members of `struct pkg` that pkg.c uses.  `deps` and `rdeps` hold
pointers to other records (indices into the heap); conflict and file records
are owned by the one collection that holds them and are stored by value. -/
structure pkg where
  type : pkg_t
  name : sbuf
  version : sbuf
  origin : sbuf
  comment : sbuf
  desc : sbuf
  deps : array Nat
  rdeps : array Nat
  conflicts : array pkg_conflict
  files : array pkg_file
deriving DecidableEq, Repr

/-! ## Accessors (pkg.c lines 13-58, 85-101) -/

/-- `pkg_type`. -/
def pkg_type (p : pkg) : pkg_t :=
  p.type

/-- `pkg_origin`. -/
def pkg_origin (p : pkg) : Option Text :=
  sbuf_data p.origin

/-- `pkg_name`. -/
def pkg_name (p : pkg) : Option Text :=
  sbuf_data p.name

/-- `pkg_version`. -/
def pkg_version (p : pkg) : Option Text :=
  sbuf_data p.version

/-- `pkg_comment`. -/
def pkg_comment (p : pkg) : Option Text :=
  sbuf_data p.comment

/-- `pkg_desc`. -/
def pkg_desc (p : pkg) : Option Text :=
  sbuf_data p.desc

/-- `pkg_deps`: the `data` pointer of the dependency collection, `none` when
it is NULL. -/
def pkg_deps (p : pkg) : Option (List Nat) :=
  p.deps.data

/-- `pkg_numdeps`. -/
def pkg_numdeps (p : pkg) : Nat :=
  p.deps.len

/-- `pkg_rdeps`. -/
def pkg_rdeps (p : pkg) : Option (List Nat) :=
  p.rdeps.data

/-- `pkg_files`. -/
def pkg_files (p : pkg) : Option (List pkg_file) :=
  p.files.data

/-- `pkg_conflicts`. -/
def pkg_conflicts (p : pkg) : Option (List pkg_conflict) :=
  p.conflicts.data

/-! ## Setters (pkg.c lines 240-330) -/

/-- `pkg_setname`. -/
def pkg_setname (p : pkg) (name : Option Text) : Int × pkg :=
  match name with
  | none => (-1, p)
  | some name =>
    let p1 := if sbuf_done p.name ≠ 0 then { p with name := sbuf_clear p.name } else p
    let p2 := { p1 with name := sbuf_cat p1.name name }
    let p3 := { p2 with name := sbuf_finish p2.name }
    (0, p3)

/-- `pkg_setversion`. -/
def pkg_setversion (p : pkg) (version : Option Text) : Int × pkg :=
  match version with
  | none => (-1, p)
  | some version =>
    let p1 := if sbuf_done p.version ≠ 0 then { p with version := sbuf_clear p.version } else p
    let p2 := { p1 with version := sbuf_cat p1.version version }
    let p3 := { p2 with version := sbuf_finish p2.version }
    (0, p3)

/-- `pkg_setcomment`. -/
def pkg_setcomment (p : pkg) (comment : Option Text) : Int × pkg :=
  match comment with
  | none => (-1, p)
  | some comment =>
    let p1 := if sbuf_done p.comment ≠ 0 then { p with comment := sbuf_clear p.comment } else p
    let p2 := { p1 with comment := sbuf_cat p1.comment comment }
    let p3 := { p2 with comment := sbuf_finish p2.comment }
    (0, p3)

/-- `pkg_setorigin`. -/
def pkg_setorigin (p : pkg) (origin : Option Text) : Int × pkg :=
  match origin with
  | none => (-1, p)
  | some origin =>
    let p1 := if sbuf_done p.origin ≠ 0 then { p with origin := sbuf_clear p.origin } else p
    let p2 := { p1 with origin := sbuf_cat p1.origin origin }
    let p3 := { p2 with origin := sbuf_finish p2.origin }
    (0, p3)

/-- `pkg_setdesc`. -/
def pkg_setdesc (p : pkg) (desc : Option Text) : Int × pkg :=
  match desc with
  | none => (-1, p)
  | some desc =>
    let p1 := if sbuf_done p.desc ≠ 0 then { p with desc := sbuf_clear p.desc } else p
    let p2 := { p1 with desc := sbuf_cat p1.desc desc }
    let p3 := { p2 with desc := sbuf_finish p2.desc }
    (0, p3)

/-! ## Adders (pkg.c lines 332-378) -/

/-- `strlcpy(dst, src, size)` for a destination array of `size` bytes that
holds `dst`: at most `size - 1` characters of `src` are copied; with `size`
zero nothing is written. -/
def strlcpy (dst src : Text) (size : Nat) : Text :=
  if size = 0 then dst else src.take (size - 1)

/-- Modelled from the spec: `pkg_file_new` is not under src/.  A new File
record has an empty path and no checksum (both character arrays empty). -/
def pkg_file_new : pkg_file :=
  { path := [], sha256 := [] }

/-- Modelled from the spec: `pkg_conflict_new` is not under src/.  A new
Conflict record holds a new, empty sbuf for its glob. -/
def pkg_conflict_new : pkg_conflict :=
  { glob := sbuf_new_auto }

/-- `pkg_adddep`.  `dep` is a pointer to a record (`none` is NULL). -/
def pkg_adddep (p : pkg) (dep : Option Nat) : Int × pkg :=
  match dep with
  | none => (-1, p)
  | some dep =>
    let p1 := { p with deps := array_init p.deps 5 }
    let p2 := { p1 with deps := array_append p1.deps dep }
    (0, p2)

/-- `pkg_addfile`.  `path_size` and `sha256_size` are `sizeof(file->path)` and
`sizeof(file->sha256)`, fixed by a header that is not under src/. -/
def pkg_addfile (path_size sha256_size : Nat) (p : pkg) (path sha256 : Option Text) :
    Int × pkg :=
  match path, sha256 with
  | none, _ => (-1, p)
  | some _, none => (-1, p)
  | some path, some sha256 =>
    let file := pkg_file_new
    let file := { file with path := strlcpy file.path path path_size }
    let file := { file with sha256 := strlcpy file.sha256 sha256 sha256_size }
    let p1 := { p with files := array_init p.files 10 }
    let p2 := { p1 with files := array_append p1.files file }
    (0, p2)

/-- `pkg_addconflict`. -/
def pkg_addconflict (p : pkg) (glob : Option Text) : Int × pkg :=
  match glob with
  | none => (-1, p)
  | some glob =>
    let conflict := pkg_conflict_new
    let conflict := { conflict with glob := sbuf_cat conflict.glob glob }
    let conflict := { conflict with glob := sbuf_finish conflict.glob }
    let p1 := { p with conflicts := array_init p.conflicts 5 }
    let p2 := { p1 with conflicts := array_append p1.conflicts conflict }
    (0, p2)

/-! ## Calls on one record -/

/-- One call of a setter or an adder, with its arguments. -/
inductive call where
  | setname (name : Option Text)
  | setversion (version : Option Text)
  | setorigin (origin : Option Text)
  | setcomment (comment : Option Text)
  | setdesc (desc : Option Text)
  | adddep (dep : Option Nat)
  | addfile (path sha256 : Option Text)
  | addconflict (glob : Option Text)
deriving DecidableEq, Repr

/-- Performs one call on a record: the return value and the record after. -/
def call.run (path_size sha256_size : Nat) (c : call) (p : pkg) : Int × pkg :=
  match c with
  | .setname t => pkg_setname p t
  | .setversion t => pkg_setversion p t
  | .setorigin t => pkg_setorigin p t
  | .setcomment t => pkg_setcomment p t
  | .setdesc t => pkg_setdesc p t
  | .adddep d => pkg_adddep p d
  | .addfile path sha => pkg_addfile path_size sha256_size p path sha
  | .addconflict g => pkg_addconflict p g

/-- Performs a sequence of calls in order: the return values, one per call,
and the record after the last call. -/
def run_calls (path_size sha256_size : Nat) : List call → pkg → List Int × pkg
  | [], p => ([], p)
  | c :: cs, p =>
    let r := c.run path_size sha256_size p
    let rest := run_calls path_size sha256_size cs r.2
    (r.1 :: rest.1, rest.2)

/-- The dependency pointer a call appends when it returned `ret`: the
argument of an `adddep` call that did not return -1. -/
def call.dep_added (c : call) (ret : Int) : Option Nat :=
  match c with
  | .adddep (some d) => if ret = -1 then none else some d
  | _ => none

/-- The File record a call appends when it returned `ret`. -/
def call.file_added (path_size sha256_size : Nat) (c : call) (ret : Int) : Option pkg_file :=
  match c with
  | .addfile (some path) (some sha) =>
    if ret = -1 then none
    else some { path := path.take (path_size - 1), sha256 := sha.take (sha256_size - 1) }
  | _ => none

/-- The Conflict record a call appends when it returned `ret`. -/
def call.conflict_added (c : call) (ret : Int) : Option pkg_conflict :=
  match c with
  | .addconflict (some g) =>
    if ret = -1 then none else some { glob := { s_buf := g, finished := true } }
  | _ => none

/-- Whether a call is a call of `pkg_adddep`. -/
def call.on_deps (c : call) : Bool :=
  match c with
  | .adddep _ => true
  | _ => false

/-- Whether a call is a call of `pkg_addfile`. -/
def call.on_files (c : call) : Bool :=
  match c with
  | .addfile _ _ => true
  | _ => false

/-- Whether a call is a call of `pkg_addconflict`. -/
def call.on_conflicts (c : call) : Bool :=
  match c with
  | .addconflict _ => true
  | _ => false

/-- A text buffer is in one of the two states a text field of the data model
has: unset (nothing written, not finished) or set (finished).  The state in
between, text written but not finished, exists only inside a setter, between
its `sbuf_cat` and its `sbuf_finish`. -/
def sbuf.settled (s : sbuf) : Prop :=
  s.finished = true ∨ s.s_buf = []

/-- Each of the five text fields of the record is unset or set. -/
def pkg.texts_settled (p : pkg) : Prop :=
  p.name.settled ∧ p.version.settled ∧ p.origin.settled ∧ p.comment.settled ∧ p.desc.settled

/-! ## The heap: allocation, release, reset (pkg.c lines 180-238) -/

/-- Records are allocated in `cells`; a record pointer is an index into it.
`freed` lists, in order, the pointers that have been handed to `free`: the
storage of a released record is not reused and its last contents stay in
`cells`, so that a pointer released twice shows up twice. -/
structure Heap where
  cells : List pkg
  freed : List Nat
deriving DecidableEq, Repr

/-- The record a pointer designates, if it designates one. -/
def Heap.read (h : Heap) (a : Nat) : Option pkg :=
  h.cells[a]?

/-- Writes through a record pointer: `f` is applied to the record at `a`. -/
def Heap.modify (h : Heap) (a : Nat) (f : pkg → pkg) : Heap :=
  match h.cells[a]? with
  | none => h
  | some r => { h with cells := h.cells.set a (f r) }

/-- The record `pkg_new` builds: zeroed by `calloc`, then five new sbufs. -/
def pkg_calloc : pkg :=
  { type := pkg_t.PKG_FILE,
    name := sbuf_new_auto, version := sbuf_new_auto, origin := sbuf_new_auto,
    comment := sbuf_new_auto, desc := sbuf_new_auto,
    deps := { data := none }, rdeps := { data := none },
    conflicts := { data := none }, files := { data := none } }

/-- `pkg_new`: allocates a record and returns its pointer (`*pkg`).
Allocation failure ends the process and is not modelled. -/
def pkg_new (h : Heap) : Heap × Nat :=
  ({ h with cells := h.cells ++ [pkg_calloc] }, h.cells.length)

/-- The destructor calls of `array_reset` and `array_free`: `free_elm` is
applied to every element in order. -/
def array_release (free_elm : Heap → Nat → Heap) (h : Heap) (elems : List Nat) : Heap :=
  elems.foldl free_elm h

/-- `pkg_free` with a bound on the nesting depth it follows.  The sbufs, the
Conflict and File records and the storage of the four collections belong to
the record and go with it; of `array_free(&a, f)` the model keeps the
destructor calls: the records in `deps` and `rdeps` are released through
`pkg_free_void`, which is `pkg_free` on a non-NULL pointer. -/
def pkg_free_fuel : Nat → Heap → Option Nat → Heap
  | 0, h, _ => h
  | _ + 1, h, none => h
  | fuel + 1, h, some a =>
    match h.cells[a]? with
    | none => h
    | some r =>
      let h1 := array_release (fun h e => pkg_free_fuel fuel h (some e)) h r.deps.elems
      let h2 := array_release (fun h e => pkg_free_fuel fuel h (some e)) h1 r.rdeps.elems
      { h2 with freed := h2.freed ++ [a] }

/-- `pkg_free`.  Records own their dependencies, so the nesting is no deeper
than the number of records allocated. -/
def pkg_free (h : Heap) (p : Option Nat) : Heap :=
  pkg_free_fuel (h.cells.length + 1) h p

/-- `pkg_free_void`: `pkg_free` on an element of `deps` or `rdeps`. -/
def pkg_free_void (h : Heap) (e : Nat) : Heap :=
  pkg_free h (some e)

/-- The elements of the `deps` collection of the record at `a`. -/
def Heap.deps_of (h : Heap) (a : Nat) : List Nat :=
  match h.cells[a]? with
  | none => []
  | some r => r.deps.elems

/-- The elements of the `rdeps` collection of the record at `a`. -/
def Heap.rdeps_of (h : Heap) (a : Nat) : List Nat :=
  match h.cells[a]? with
  | none => []
  | some r => r.rdeps.elems

/-- `pkg_reset`.  `array_reset(&a, f)` is the destructor calls followed by the
re-initialisation of the collection; the destructors of Conflict and File
records release storage the model does not track. -/
def pkg_reset (h : Heap) (p : Option Nat) : Heap :=
  match p with
  | none => h
  | some a =>
    let h := h.modify a (fun r => { r with name := sbuf_clear r.name })
    let h := h.modify a (fun r => { r with version := sbuf_clear r.version })
    let h := h.modify a (fun r => { r with origin := sbuf_clear r.origin })
    let h := h.modify a (fun r => { r with comment := sbuf_clear r.comment })
    let h := h.modify a (fun r => { r with desc := sbuf_clear r.desc })
    let h := array_release pkg_free_void h (h.deps_of a)
    let h := h.modify a (fun r => { r with deps := array_reset r.deps })
    let h := array_release pkg_free_void h (h.rdeps_of a)
    let h := h.modify a (fun r => { r with rdeps := array_reset r.rdeps })
    let h := h.modify a (fun r => { r with conflicts := array_reset r.conflicts })
    let h := h.modify a (fun r => { r with files := array_reset r.files })
    h

/-- The heap `h'` has as many cells as `h` and the same record at every
pointer other than `p`. -/
def heap_frame (p : Nat) (h h' : Heap) : Prop :=
  h'.cells.length = h.cells.length ∧ ∀ b, b ≠ p → h'.read b = h.read b

/-- Every record of the heap has each of its text fields unset or set. -/
def heap_settled (h : Heap) : Prop :=
  ∀ a r, h.read a = some r → r.texts_settled

/-! ## The database gateway (pkgdb.c, not under src/) -/

/-- Modelled from the spec: one installed package as the database stores it,
with the text fields a Package Record has. -/
structure pkgdb_row where
  origin : Text
  name : Text
  version : Text
  comment : Text
  desc : Text
deriving DecidableEq, Repr

/-- Modelled from the spec: the database is the sequence of its installed
packages. -/
abbrev pkgdb := List pkgdb_row

/-- Modelled from the spec: a cursor holds the rows a query has still to
yield. -/
abbrev pkgdb_it := List pkgdb_row

/-- Modelled from the spec: `pkgdb_query(db, pattern, MATCH_EXACT)` is not
under src/.  The cursor yields the installed packages whose origin is exactly
the pattern; a pattern that is no string (the origin of a record whose origin
was never set) matches nothing. -/
def pkgdb_query (db : pkgdb) (pattern : Option Text) : pkgdb_it :=
  db.filter (fun row => decide (some row.origin = pattern))

/-- Modelled from the spec: `pkgdb_it_next_pkg(it, &p, MATCH_EXACT)` is not
under src/.  The spec gives `cursor.next` as yielding an optional Package
Record; the call in pkg.c hands it the address of the pointer `p`, which
`pkg_resolvdeps` has set with `pkg_new` beforehand.  With a row left, the
record `p` points to is reset and filled from the row through the setters, `p`
itself is left as it is, and 0 is returned; with no row left nothing is
written and the result is non-zero. -/
def pkgdb_it_next_pkg (h : Heap) (it : pkgdb_it) (p : Nat) : Int × Heap × pkgdb_it :=
  match it with
  | [] => (1, h, [])
  | row :: rest =>
    let h := pkg_reset h (some p)
    let h := h.modify p (fun r => (pkg_setorigin r (some row.origin)).2)
    let h := h.modify p (fun r => (pkg_setname r (some row.name)).2)
    let h := h.modify p (fun r => (pkg_setversion r (some row.version)).2)
    let h := h.modify p (fun r => (pkg_setcomment r (some row.comment)).2)
    let h := h.modify p (fun r => (pkg_setdesc r (some row.desc)).2)
    (0, h, rest)

/-! ## Dependency resolution (pkg.c lines 60-83) -/

/-- What a run of `pkg_resolvdeps` leaves: the return value, the heap, and the
patterns of the exact-match queries it issued, in order. -/
structure resolv_result where
  ret : Int
  heap : Heap
  queries : List (Option Text)
deriving DecidableEq, Repr

/-- The body of the loop of `pkg_resolvdeps` (lines 70-79) at index `i`, where
`deps[i]` is the pointer `d` and designates the record `dr`; `pkg` is the
record being resolved and `p` the scratch record. -/
def pkg_resolvdeps_body (db : pkgdb) (dr : pkg) (pkg p i d : Nat) (h : Heap) : Heap :=
  let it := pkgdb_query db (pkg_origin dr)
  let (found, h, _) := pkgdb_it_next_pkg h it p
  if found = 0 then
    let h := h.modify p (fun r => { r with type := pkg_t.PKG_INSTALLED })
    let h := pkg_free h (some d)
    h.modify pkg (fun r => { r with deps := { data := r.deps.data.map (fun l => l.set i p) } })
  else
    h.modify d (fun r => { r with type := pkg_t.PKG_NOTFOUND })

/-- The loop of `pkg_resolvdeps` from index `i` on, for the record at `pkg`
and the scratch record at `p`; `none` is a memory fault.  `deps[i]` is read
through the `data` pointer of the collection: with `data == NULL` the read
dereferences a null pointer; the pointer array of an initialised collection is
taken to end with NULL right after its `len` elements, which is what the loop
condition `deps[i] != NULL` relies on.  The first argument bounds the number
of reads of `deps[i]`. -/
def pkg_resolvdeps_loop (db : pkgdb) (pkg p : Nat) :
    Nat → Nat → Heap → List (Option Text) → Option resolv_result
  | 0, _, _, _ => none
  | fuel + 1, i, h, queries =>
    match h.read pkg with
    | none => none
    | some r =>
      match pkg_deps r with
      | none => none
      | some deps =>
        match deps[i]? with
        | none => some { ret := 0, heap := h, queries := queries }
        | some d =>
          match h.read d with
          | none => none
          | some dr =>
            pkg_resolvdeps_loop db pkg p fuel (i + 1) (pkg_resolvdeps_body db dr pkg p i d h)
              (queries ++ [pkg_origin dr])

/-- `pkg_resolvdeps` on the record at `pkg`; `none` is a memory fault.  The
loop reads `deps[i]` once per element and once more for the terminator. -/
def pkg_resolvdeps (db : pkgdb) (h : Heap) (pkg : Nat) : Option resolv_result :=
  match h.read pkg with
  | none => none
  | some r =>
    let (h1, p) := pkg_new h
    pkg_resolvdeps_loop db pkg p (pkg_numdeps r + 1) 0 h1 []

/-! ## Archive ingestion (pkg.c lines 103-178) -/

/-- One entry of an archive as libarchive yields it: its path name and the
bytes of its payload. -/
structure archive_entry where
  pathname : Text
  data : List Char
deriving DecidableEq, Repr

/-- A stream opened by libarchive: the entries for which
`archive_read_next_header` returns `ARCHIVE_OK`, in order, and the status it
returns after them (`ARCHIVE_EOF` at the end of the archive, an error code
when the stream breaks off). -/
structure archive where
  entries : List archive_entry
  status : Int
deriving DecidableEq, Repr

/-- The status `ARCHIVE_OK` of libarchive. -/
def ARCHIVE_OK : Int := 0

/-- The status `ARCHIVE_EOF` of libarchive. -/
def ARCHIVE_EOF : Int := 1

/-- What can be opened: `archive_read_open_filename` succeeds on a path
exactly when the path leads to a stream here. -/
abbrev filesystem := Text → Option archive

/-- The collaborators of `pkg_open` that are not under src/, and the size of
the path array of a File record. -/
structure collaborators where
  file_fetch : Text → Text → filesystem → filesystem
  pkg_parse_manifest : Heap → Nat → Text → Heap
  path_size : Nat

/-- Modelled from the spec: the macro `STARTS_WITH` is defined in util.h, which
is not under src/; a source string is remote when it is prefixed with the
given scheme. -/
def STARTS_WITH (string needle : Text) : Bool :=
  needle.isPrefixOf string

/-- The payload read into a zeroed buffer of `size + 1` bytes, as a C string:
the bytes before the first NUL. -/
def c_str (bytes : List Char) : Text :=
  bytes.takeWhile (fun c => c ≠ Char.ofNat 0)

/-- Lines 134-139 of `pkg_open`: the new record, tagged `PKG_FILE`, with the
`deps`, `conflicts` and `files` collections initialised. -/
def pkg_open_init (h : Heap) : Heap × Nat :=
  let (h, p) := pkg_new h
  let h := h.modify p (fun r => { r with type := pkg_t.PKG_FILE })
  let h := h.modify p (fun r => { r with deps := array_init r.deps 5 })
  let h := h.modify p (fun r => { r with conflicts := array_init r.conflicts 5 })
  let h := h.modify p (fun r => { r with files := array_init r.files 10 })
  (h, p)

/-- The body of the loop of `pkg_open` (lines 142-169) for one entry. -/
def pkg_open_entry (c : collaborators) (p : Nat) (h : Heap) (ae : archive_entry) : Heap :=
  let h :=
    if ae.pathname = "+DESC".toList then
      let buf := c_str ae.data
      let h := h.modify p (fun r => { r with desc := sbuf_cat r.desc buf })
      h.modify p (fun r => { r with desc := sbuf_finish r.desc })
    else h
  let h :=
    if ae.pathname = "+MANIFEST".toList then
      let buf := c_str ae.data
      c.pkg_parse_manifest h p buf
    else h
  if ae.pathname.head? = some '+' then
    h
  else
    let file := pkg_file_new
    let file := { file with path := strlcpy file.path ae.pathname c.path_size }
    h.modify p (fun r => { r with files := array_append r.files file })

/-- The loop of `pkg_open` (lines 141-170): one pass over the entries the
stream yields. -/
def pkg_open_loop (c : collaborators) (p : Nat) : List archive_entry → Heap → Heap
  | [], h => h
  | ae :: rest, h => pkg_open_loop c p rest (pkg_open_entry c p h ae)

/-- What a call of `pkg_open` leaves: the return value, the heap, the
caller's record pointer `*pkg`, and whether `warn("Archive corrupted")` was
issued. -/
structure open_result where
  ret : Int
  heap : Heap
  pkg : Option Nat
  warned : Bool

/-- Lines 113-118 of `pkg_open`: a remote source is fetched to the fixed
staging path, which is then the path that is read.  The result is the
filesystem after the fetch and the path handed to libarchive. -/
def pkg_open_stage (c : collaborators) (fs : filesystem) (path : Text) : filesystem × Text :=
  if STARTS_WITH path "http://".toList || STARTS_WITH path "https://".toList
      || STARTS_WITH path "ftp://".toList then
    (c.file_fetch path "/tmp/bla".toList fs, "/tmp/bla".toList)
  else
    (fs, path)

/-- The stream `archive_read_open_filename` opens in `pkg_open`, `none` when
the source cannot be opened. -/
def pkg_open_source (c : collaborators) (fs : filesystem) (path : Text) : Option archive :=
  (pkg_open_stage c fs path).1 (pkg_open_stage c fs path).2

/-- `pkg_open(path, &pkg, query_flags)`; `out` is `*pkg` before the call. -/
def pkg_open (c : collaborators) (fs : filesystem) (h : Heap) (path : Text)
    (out : Option Nat) : open_result :=
  match pkg_open_source c fs path with
  | none => { ret := -1, heap := h, pkg := out, warned := false }
  | some a =>
    let (h, p) := pkg_open_init h
    let h := pkg_open_loop c p a.entries h
    { ret := 0, heap := h, pkg := some p, warned := decide (a.status ≠ ARCHIVE_EOF) }

/-! ## Concrete inputs used by the closed statements below -/

/-- A populated record: all five texts set, two dependencies (the records at
1 and 2), one conflict and two files. -/
def pkg_populated : pkg :=
  { type := pkg_t.PKG_INSTALLED,
    name := { s_buf := "foo".toList, finished := true },
    version := { s_buf := "1.0".toList, finished := true },
    origin := { s_buf := "bar/foo".toList, finished := true },
    comment := { s_buf := "a comment".toList, finished := true },
    desc := { s_buf := "A sample package".toList, finished := true },
    deps := { data := some [1, 2] },
    rdeps := { data := none },
    conflicts := { data := some [{ glob := { s_buf := "foo-0*".toList, finished := true } }] },
    files := { data := some [{ path := "bin/foo".toList, sha256 := [] },
                             { path := "share/doc/foo.txt".toList, sha256 := [] }] } }

/-- A dependency stub: a new record with only its origin set. -/
def pkg_stub (origin : Text) : pkg :=
  (pkg_setorigin pkg_calloc (some origin)).2

/-- A heap that holds the populated record at 0 and its two dependency stubs
at 1 and 2. -/
def heap_populated : Heap :=
  { cells := [pkg_populated, pkg_stub "baz/qux".toList, pkg_stub "baz/quux".toList],
    freed := [] }

/-- The record `pkg_open` has built when it enters its loop. -/
def pkg_opened : pkg :=
  { pkg_calloc with
    type := pkg_t.PKG_FILE,
    deps := { data := some [] },
    conflicts := { data := some [] },
    files := { data := some [] } }

/-- Collaborators for the closed statements: nothing is fetched, the manifest
reader sets the name of the record to the text it is given, and the path array
of a File record has 8 bytes. -/
def collaborators_sample : collaborators :=
  { file_fetch := fun _ _ fs => fs,
    pkg_parse_manifest := fun h p buf => h.modify p (fun r => (pkg_setname r (some buf)).2),
    path_size := 8 }

/-- An archive that yields a description, a manifest, a payload file, another
metadata entry and a second payload file, and then breaks off with a read
error (`ARCHIVE_FATAL`). -/
def archive_broken : archive :=
  { entries := [{ pathname := "+DESC".toList, data := "A sample package".toList },
                { pathname := "+MANIFEST".toList, data := "foo".toList },
                { pathname := "bin/foo".toList, data := "ELF".toList },
                { pathname := "+INSTALL".toList, data := [] },
                { pathname := "share/doc/foo.txt".toList, data := "text".toList }],
    status := -30 }

/-- An archive with no entries. -/
def archive_empty : archive :=
  { entries := [], status := ARCHIVE_EOF }

/-- A filesystem with the two archives above and nothing else. -/
def filesystem_sample : filesystem :=
  fun path =>
    if path = "broken.txz".toList then some archive_broken
    else if path = "empty.txz".toList then some archive_empty
    else none

/-- A heap with no records. -/
def heap_empty : Heap :=
  { cells := [], freed := [] }

/-- An installed package of the database with the given origin and name. -/
def pkgdb_row_sample (origin name : Text) : pkgdb_row :=
  { origin := origin, name := name, version := "1.0".toList, comment := [], desc := [] }

/-- A database in which `baz/qux` and `baz/quux` are both installed. -/
def pkgdb_both : pkgdb :=
  [pkgdb_row_sample "baz/qux".toList "qux".toList,
   pkgdb_row_sample "baz/quux".toList "quux".toList]

/-- A database in which only `baz/quux` is installed. -/
def pkgdb_second_only : pkgdb :=
  [pkgdb_row_sample "baz/quux".toList "quux".toList]

/-- A heap with the record built by `pkg_new`, `pkg_adddep(1)`, `pkg_adddep(2)`
at 0 and the stubs for `baz/qux` and `baz/quux` at 1 and 2. -/
def heap_two_deps : Heap :=
  { cells := [(pkg_adddep (pkg_adddep pkg_calloc (some 1)).2 (some 2)).2,
              pkg_stub "baz/qux".toList, pkg_stub "baz/quux".toList],
    freed := [] }

/-- A heap with one record, built by `pkg_new` and `pkg_setname`: no
dependency was ever added to it. -/
def heap_no_deps : Heap :=
  { cells := [(pkg_setname pkg_calloc (some "foo".toList)).2], freed := [] }

/-! ## Theorems -/

/-! ### Setters -/

theorem pkg_setname_some (p : pkg) (t : Text) :
    pkg_setname p (some t) = (0, { p with name :=
      { s_buf := if p.name.finished then t else p.name.s_buf ++ t, finished := true } }) := by
  cases h : p.name.finished <;>
    simp [pkg_setname, sbuf_done, sbuf_clear, sbuf_cat, sbuf_finish, h]

theorem pkg_setversion_some (p : pkg) (t : Text) :
    pkg_setversion p (some t) = (0, { p with version :=
      { s_buf := if p.version.finished then t else p.version.s_buf ++ t, finished := true } }) := by
  cases h : p.version.finished <;>
    simp [pkg_setversion, sbuf_done, sbuf_clear, sbuf_cat, sbuf_finish, h]

theorem pkg_setorigin_some (p : pkg) (t : Text) :
    pkg_setorigin p (some t) = (0, { p with origin :=
      { s_buf := if p.origin.finished then t else p.origin.s_buf ++ t, finished := true } }) := by
  cases h : p.origin.finished <;>
    simp [pkg_setorigin, sbuf_done, sbuf_clear, sbuf_cat, sbuf_finish, h]

theorem pkg_setcomment_some (p : pkg) (t : Text) :
    pkg_setcomment p (some t) = (0, { p with comment :=
      { s_buf := if p.comment.finished then t else p.comment.s_buf ++ t, finished := true } }) := by
  cases h : p.comment.finished <;>
    simp [pkg_setcomment, sbuf_done, sbuf_clear, sbuf_cat, sbuf_finish, h]

theorem pkg_setdesc_some (p : pkg) (t : Text) :
    pkg_setdesc p (some t) = (0, { p with desc :=
      { s_buf := if p.desc.finished then t else p.desc.s_buf ++ t, finished := true } }) := by
  cases h : p.desc.finished <;>
    simp [pkg_setdesc, sbuf_done, sbuf_clear, sbuf_cat, sbuf_finish, h]

/-- C1: for every record whose text fields are each unset or set (the state
of every record pkg.c builds, see `texts_settled_calloc`,
`texts_settled_run_calls`, `set_then_read_after_calls` and the `heap_settled`
theorems) and every text `t`,
each of the five setters returns 0 and the matching accessor then reads
exactly `t`; and for all texts `t1` and `t2`, setting `t1` and then `t2`
leaves the accessor reading exactly `t2`, with nothing of `t1`. -/
theorem C1_set_then_read (p : pkg) (t t1 t2 : Text) (hp : p.texts_settled) :
    ((pkg_setname p (some t)).1 = 0
      ∧ pkg_name (pkg_setname p (some t)).2 = some t
      ∧ (pkg_setname (pkg_setname p (some t1)).2 (some t2)).1 = 0
      ∧ pkg_name (pkg_setname (pkg_setname p (some t1)).2 (some t2)).2 = some t2)
    ∧ ((pkg_setversion p (some t)).1 = 0
      ∧ pkg_version (pkg_setversion p (some t)).2 = some t
      ∧ (pkg_setversion (pkg_setversion p (some t1)).2 (some t2)).1 = 0
      ∧ pkg_version (pkg_setversion (pkg_setversion p (some t1)).2 (some t2)).2 = some t2)
    ∧ ((pkg_setorigin p (some t)).1 = 0
      ∧ pkg_origin (pkg_setorigin p (some t)).2 = some t
      ∧ (pkg_setorigin (pkg_setorigin p (some t1)).2 (some t2)).1 = 0
      ∧ pkg_origin (pkg_setorigin (pkg_setorigin p (some t1)).2 (some t2)).2 = some t2)
    ∧ ((pkg_setcomment p (some t)).1 = 0
      ∧ pkg_comment (pkg_setcomment p (some t)).2 = some t
      ∧ (pkg_setcomment (pkg_setcomment p (some t1)).2 (some t2)).1 = 0
      ∧ pkg_comment (pkg_setcomment (pkg_setcomment p (some t1)).2 (some t2)).2 = some t2)
    ∧ ((pkg_setdesc p (some t)).1 = 0
      ∧ pkg_desc (pkg_setdesc p (some t)).2 = some t
      ∧ (pkg_setdesc (pkg_setdesc p (some t1)).2 (some t2)).1 = 0
      ∧ pkg_desc (pkg_setdesc (pkg_setdesc p (some t1)).2 (some t2)).2 = some t2) := by
  obtain ⟨h1, h2, h3, h4, h5⟩ := hp
  refine ⟨?_, ?_, ?_, ?_, ?_⟩
  · rcases h1 with h | h <;> simp [pkg_setname_some, pkg_name, sbuf_data, h]
  · rcases h2 with h | h <;> simp [pkg_setversion_some, pkg_version, sbuf_data, h]
  · rcases h3 with h | h <;> simp [pkg_setorigin_some, pkg_origin, sbuf_data, h]
  · rcases h4 with h | h <;> simp [pkg_setcomment_some, pkg_comment, sbuf_data, h]
  · rcases h5 with h | h <;> simp [pkg_setdesc_some, pkg_desc, sbuf_data, h]

/-- C1 at a concrete input: the populated record, whose five texts are set. -/
theorem C1_set_then_read_witness :
    pkg_populated.texts_settled
    ∧ (pkg_setname pkg_populated (some "pkg".toList)).1 = 0
    ∧ pkg_name (pkg_setname pkg_populated (some "pkg".toList)).2 = some "pkg".toList
    ∧ pkg_name (pkg_setname (pkg_setname pkg_populated (some "pkg".toList)).2
        (some "libpkg".toList)).2 = some "libpkg".toList :=
  have hp : pkg_populated.texts_settled :=
    ⟨Or.inl rfl, Or.inl rfl, Or.inl rfl, Or.inl rfl, Or.inl rfl⟩
  have w := C1_set_then_read pkg_populated "pkg".toList "pkg".toList "libpkg".toList hp
  ⟨hp, w.1.1, w.1.2.1, w.1.2.2.2⟩

/-! ### Adders -/

/-- C3: an adder called with an absent required argument returns -1 and hands
back the record it was given, so the four collections, their counts, the text
fields and the kind are as before. -/
theorem C3_absent_argument_leaves_record (path_size sha256_size : Nat) (p : pkg)
    (path sha256 : Option Text) :
    pkg_adddep p none = (-1, p)
    ∧ pkg_addfile path_size sha256_size p none sha256 = (-1, p)
    ∧ pkg_addfile path_size sha256_size p path none = (-1, p)
    ∧ pkg_addconflict p none = (-1, p) := by
  refine ⟨rfl, rfl, ?_, rfl⟩
  cases path <;> rfl

theorem pkg_setname_none (p : pkg) : pkg_setname p none = (-1, p) := rfl

theorem pkg_setversion_none (p : pkg) : pkg_setversion p none = (-1, p) := rfl

theorem pkg_setorigin_none (p : pkg) : pkg_setorigin p none = (-1, p) := rfl

theorem pkg_setcomment_none (p : pkg) : pkg_setcomment p none = (-1, p) := rfl

theorem pkg_setdesc_none (p : pkg) : pkg_setdesc p none = (-1, p) := rfl

theorem strlcpy_nil (src : Text) (size : Nat) : strlcpy [] src size = src.take (size - 1) := by
  unfold strlcpy
  split
  · next h => subst h; simp
  · rfl

theorem array_append_init_elems {α : Type} (a : array α) (c : Nat) (d : α) :
    (array_append (array_init a c) d).elems = a.elems ++ [d] := by
  cases a with
  | mk data => cases data <;> simp [array_append, array_init, array.elems]

theorem array_len_eq {α : Type} (a : array α) : a.len = a.elems.length := by
  cases a with
  | mk data => cases data <;> simp [array.len, array.elems]

theorem run_calls_collect {β : Type} (ps ss : Nat) (g : pkg → List β) (f : call → Int → Option β)
    (step : ∀ c p, g (call.run ps ss c p).2 = g p ++ (f c (call.run ps ss c p).1).toList) :
    ∀ cs p, g (run_calls ps ss cs p).2
      = g p ++ (cs.zip (run_calls ps ss cs p).1).filterMap (fun cr => f cr.1 cr.2) := by
  intro cs
  induction cs with
  | nil => intro p; simp [run_calls]
  | cons c cs ih =>
    intro p
    simp only [run_calls, List.zip_cons_cons, List.filterMap_cons]
    rw [ih, step]
    cases f c (call.run ps ss c p).1 <;> simp

theorem run_calls_count (ps ss : Nat) (n : pkg → Nat) (t : call → Int → Bool)
    (step : ∀ c p, n (call.run ps ss c p).2
      = n p + (if t c (call.run ps ss c p).1 then 1 else 0)) :
    ∀ cs p, n (run_calls ps ss cs p).2
      = n p + ((cs.zip (run_calls ps ss cs p).1).filter (fun cr => t cr.1 cr.2)).length := by
  intro cs
  induction cs with
  | nil => intro p; simp [run_calls]
  | cons c cs ih =>
    intro p
    simp only [run_calls, List.zip_cons_cons, List.filter_cons]
    rw [ih, step]
    cases t c (call.run ps ss c p).1 <;> simp
    omega

theorem run_dep_step (ps ss : Nat) (c : call) (p : pkg) :
    (call.run ps ss c p).2.deps.elems
      = p.deps.elems ++ (c.dep_added (call.run ps ss c p).1).toList := by
  cases c with
  | adddep d => cases d <;> simp [call.run, call.dep_added, pkg_adddep, array_append_init_elems]
  | addfile a b => cases a <;> cases b <;> simp [call.run, call.dep_added, pkg_addfile]
  | addconflict g => cases g <;> simp [call.run, call.dep_added, pkg_addconflict]
  | setname t => cases t <;> simp [call.run, call.dep_added, pkg_setname_some, pkg_setname_none]
  | setversion t =>
    cases t <;> simp [call.run, call.dep_added, pkg_setversion_some, pkg_setversion_none]
  | setorigin t =>
    cases t <;> simp [call.run, call.dep_added, pkg_setorigin_some, pkg_setorigin_none]
  | setcomment t =>
    cases t <;> simp [call.run, call.dep_added, pkg_setcomment_some, pkg_setcomment_none]
  | setdesc t => cases t <;> simp [call.run, call.dep_added, pkg_setdesc_some, pkg_setdesc_none]

theorem run_file_step (ps ss : Nat) (c : call) (p : pkg) :
    (call.run ps ss c p).2.files.elems
      = p.files.elems ++ (c.file_added ps ss (call.run ps ss c p).1).toList := by
  cases c with
  | adddep d => cases d <;> simp [call.run, call.file_added, pkg_adddep]
  | addfile a b =>
    cases a <;> cases b <;>
      simp [call.run, call.file_added, pkg_addfile, array_append_init_elems, strlcpy_nil,
        pkg_file_new]
  | addconflict g => cases g <;> simp [call.run, call.file_added, pkg_addconflict]
  | setname t => cases t <;> simp [call.run, call.file_added, pkg_setname_some, pkg_setname_none]
  | setversion t =>
    cases t <;> simp [call.run, call.file_added, pkg_setversion_some, pkg_setversion_none]
  | setorigin t =>
    cases t <;> simp [call.run, call.file_added, pkg_setorigin_some, pkg_setorigin_none]
  | setcomment t =>
    cases t <;> simp [call.run, call.file_added, pkg_setcomment_some, pkg_setcomment_none]
  | setdesc t => cases t <;> simp [call.run, call.file_added, pkg_setdesc_some, pkg_setdesc_none]

theorem run_conflict_step (ps ss : Nat) (c : call) (p : pkg) :
    (call.run ps ss c p).2.conflicts.elems
      = p.conflicts.elems ++ (c.conflict_added (call.run ps ss c p).1).toList := by
  cases c with
  | adddep d => cases d <;> simp [call.run, call.conflict_added, pkg_adddep]
  | addfile a b => cases a <;> cases b <;> simp [call.run, call.conflict_added, pkg_addfile]
  | addconflict g =>
    cases g <;>
      simp [call.run, call.conflict_added, pkg_addconflict, array_append_init_elems,
        pkg_conflict_new, sbuf_new_auto, sbuf_cat, sbuf_finish]
  | setname t =>
    cases t <;> simp [call.run, call.conflict_added, pkg_setname_some, pkg_setname_none]
  | setversion t =>
    cases t <;> simp [call.run, call.conflict_added, pkg_setversion_some, pkg_setversion_none]
  | setorigin t =>
    cases t <;> simp [call.run, call.conflict_added, pkg_setorigin_some, pkg_setorigin_none]
  | setcomment t =>
    cases t <;> simp [call.run, call.conflict_added, pkg_setcomment_some, pkg_setcomment_none]
  | setdesc t =>
    cases t <;> simp [call.run, call.conflict_added, pkg_setdesc_some, pkg_setdesc_none]

theorem run_dep_count (ps ss : Nat) (c : call) (p : pkg) :
    (call.run ps ss c p).2.deps.len
      = p.deps.len + (if (c.on_deps && decide ((call.run ps ss c p).1 ≠ -1)) then 1 else 0) := by
  simp only [array_len_eq]
  cases c with
  | adddep d => cases d <;> simp [call.run, call.on_deps, pkg_adddep, array_append_init_elems]
  | addfile a b => cases a <;> cases b <;> simp [call.run, call.on_deps, pkg_addfile]
  | addconflict g => cases g <;> simp [call.run, call.on_deps, pkg_addconflict]
  | setname t => cases t <;> simp [call.run, call.on_deps, pkg_setname_some, pkg_setname_none]
  | setversion t =>
    cases t <;> simp [call.run, call.on_deps, pkg_setversion_some, pkg_setversion_none]
  | setorigin t =>
    cases t <;> simp [call.run, call.on_deps, pkg_setorigin_some, pkg_setorigin_none]
  | setcomment t =>
    cases t <;> simp [call.run, call.on_deps, pkg_setcomment_some, pkg_setcomment_none]
  | setdesc t => cases t <;> simp [call.run, call.on_deps, pkg_setdesc_some, pkg_setdesc_none]

theorem run_file_count (ps ss : Nat) (c : call) (p : pkg) :
    (call.run ps ss c p).2.files.len
      = p.files.len + (if (c.on_files && decide ((call.run ps ss c p).1 ≠ -1)) then 1 else 0) := by
  simp only [array_len_eq]
  cases c with
  | adddep d => cases d <;> simp [call.run, call.on_files, pkg_adddep]
  | addfile a b =>
    cases a <;> cases b <;> simp [call.run, call.on_files, pkg_addfile, array_append_init_elems]
  | addconflict g => cases g <;> simp [call.run, call.on_files, pkg_addconflict]
  | setname t => cases t <;> simp [call.run, call.on_files, pkg_setname_some, pkg_setname_none]
  | setversion t =>
    cases t <;> simp [call.run, call.on_files, pkg_setversion_some, pkg_setversion_none]
  | setorigin t =>
    cases t <;> simp [call.run, call.on_files, pkg_setorigin_some, pkg_setorigin_none]
  | setcomment t =>
    cases t <;> simp [call.run, call.on_files, pkg_setcomment_some, pkg_setcomment_none]
  | setdesc t => cases t <;> simp [call.run, call.on_files, pkg_setdesc_some, pkg_setdesc_none]

theorem run_conflict_count (ps ss : Nat) (c : call) (p : pkg) :
    (call.run ps ss c p).2.conflicts.len
      = p.conflicts.len
        + (if (c.on_conflicts && decide ((call.run ps ss c p).1 ≠ -1)) then 1 else 0) := by
  simp only [array_len_eq]
  cases c with
  | adddep d => cases d <;> simp [call.run, call.on_conflicts, pkg_adddep]
  | addfile a b => cases a <;> cases b <;> simp [call.run, call.on_conflicts, pkg_addfile]
  | addconflict g =>
    cases g <;> simp [call.run, call.on_conflicts, pkg_addconflict, array_append_init_elems]
  | setname t =>
    cases t <;> simp [call.run, call.on_conflicts, pkg_setname_some, pkg_setname_none]
  | setversion t =>
    cases t <;> simp [call.run, call.on_conflicts, pkg_setversion_some, pkg_setversion_none]
  | setorigin t =>
    cases t <;> simp [call.run, call.on_conflicts, pkg_setorigin_some, pkg_setorigin_none]
  | setcomment t =>
    cases t <;> simp [call.run, call.on_conflicts, pkg_setcomment_some, pkg_setcomment_none]
  | setdesc t =>
    cases t <;> simp [call.run, call.on_conflicts, pkg_setdesc_some, pkg_setdesc_none]

theorem run_calls_append (ps ss : Nat) (cs more : List call) (p : pkg) :
    (run_calls ps ss (cs ++ more) p).2 = (run_calls ps ss more (run_calls ps ss cs p).2).2 := by
  induction cs generalizing p with
  | nil => rfl
  | cons c cs ih => simp [run_calls, ih]

/-- C2: on a freshly created record, after any finite sequence of setter and
adder calls (in particular of `pkg_adddep`, `pkg_addfile` and
`pkg_addconflict` calls), each of the three collections holds exactly the
elements appended by the calls on it that did not return -1, in call order,
and its count is the number of those calls; and whatever calls follow, the
elements appended so far stay at the front of the collection. -/
theorem C2_adders_collect_in_call_order (path_size sha256_size : Nat) (cs more : List call) :
    ((run_calls path_size sha256_size cs pkg_calloc).2.deps.elems
        = (cs.zip (run_calls path_size sha256_size cs pkg_calloc).1).filterMap
            (fun cr => cr.1.dep_added cr.2)
      ∧ pkg_numdeps (run_calls path_size sha256_size cs pkg_calloc).2
        = ((cs.zip (run_calls path_size sha256_size cs pkg_calloc).1).filter
            (fun cr => cr.1.on_deps && decide (cr.2 ≠ -1))).length
      ∧ ∃ l, (run_calls path_size sha256_size (cs ++ more) pkg_calloc).2.deps.elems
          = (run_calls path_size sha256_size cs pkg_calloc).2.deps.elems ++ l)
    ∧ ((run_calls path_size sha256_size cs pkg_calloc).2.files.elems
        = (cs.zip (run_calls path_size sha256_size cs pkg_calloc).1).filterMap
            (fun cr => cr.1.file_added path_size sha256_size cr.2)
      ∧ (run_calls path_size sha256_size cs pkg_calloc).2.files.len
        = ((cs.zip (run_calls path_size sha256_size cs pkg_calloc).1).filter
            (fun cr => cr.1.on_files && decide (cr.2 ≠ -1))).length
      ∧ ∃ l, (run_calls path_size sha256_size (cs ++ more) pkg_calloc).2.files.elems
          = (run_calls path_size sha256_size cs pkg_calloc).2.files.elems ++ l)
    ∧ ((run_calls path_size sha256_size cs pkg_calloc).2.conflicts.elems
        = (cs.zip (run_calls path_size sha256_size cs pkg_calloc).1).filterMap
            (fun cr => cr.1.conflict_added cr.2)
      ∧ (run_calls path_size sha256_size cs pkg_calloc).2.conflicts.len
        = ((cs.zip (run_calls path_size sha256_size cs pkg_calloc).1).filter
            (fun cr => cr.1.on_conflicts && decide (cr.2 ≠ -1))).length
      ∧ ∃ l, (run_calls path_size sha256_size (cs ++ more) pkg_calloc).2.conflicts.elems
          = (run_calls path_size sha256_size cs pkg_calloc).2.conflicts.elems ++ l) := by
  have hd := run_calls_collect path_size sha256_size (fun p => p.deps.elems)
    (fun c ret => c.dep_added ret) (run_dep_step path_size sha256_size)
  have hf := run_calls_collect path_size sha256_size (fun p => p.files.elems)
    (fun c ret => c.file_added path_size sha256_size ret) (run_file_step path_size sha256_size)
  have hc := run_calls_collect path_size sha256_size (fun p => p.conflicts.elems)
    (fun c ret => c.conflict_added ret) (run_conflict_step path_size sha256_size)
  have nd := run_calls_count path_size sha256_size (fun p => p.deps.len)
    (fun c ret => c.on_deps && decide (ret ≠ -1)) (run_dep_count path_size sha256_size)
  have nf := run_calls_count path_size sha256_size (fun p => p.files.len)
    (fun c ret => c.on_files && decide (ret ≠ -1)) (run_file_count path_size sha256_size)
  have nc := run_calls_count path_size sha256_size (fun p => p.conflicts.len)
    (fun c ret => c.on_conflicts && decide (ret ≠ -1)) (run_conflict_count path_size sha256_size)
  refine ⟨⟨?_, ?_, ?_⟩, ⟨?_, ?_, ?_⟩, ⟨?_, ?_, ?_⟩⟩
  · simpa [pkg_calloc, array.elems] using hd cs pkg_calloc
  · simpa [pkg_calloc, array.len, pkg_numdeps] using nd cs pkg_calloc
  · exact ⟨_, by rw [run_calls_append]; exact hd more _⟩
  · simpa [pkg_calloc, array.elems] using hf cs pkg_calloc
  · simpa [pkg_calloc, array.len] using nf cs pkg_calloc
  · exact ⟨_, by rw [run_calls_append]; exact hf more _⟩
  · simpa [pkg_calloc, array.elems] using hc cs pkg_calloc
  · simpa [pkg_calloc, array.len] using nc cs pkg_calloc
  · exact ⟨_, by rw [run_calls_append]; exact hc more _⟩

/-! ### Reset -/

theorem read_modify (h : Heap) (a : Nat) (f : pkg → pkg) :
    (h.modify a f).read a = (h.read a).map f := by
  unfold Heap.modify Heap.read
  cases hr : h.cells[a]? with
  | none => simp [hr]
  | some r =>
    have hlt : a < h.cells.length := by
      rcases List.getElem?_eq_some_iff.mp hr with ⟨hlt, _⟩
      exact hlt
    simp [hlt]

theorem array_release_cells (f : Heap → Nat → Heap) (hf : ∀ h e, (f h e).cells = h.cells)
    (l : List Nat) (h : Heap) : (array_release f h l).cells = h.cells := by
  induction l generalizing h with
  | nil => rfl
  | cons e l ih =>
    simp only [array_release, List.foldl_cons] at ih ⊢
    rw [ih, hf]

theorem pkg_free_fuel_cells (fuel : Nat) : ∀ (h : Heap) (x : Option Nat),
    (pkg_free_fuel fuel h x).cells = h.cells := by
  induction fuel with
  | zero => intro h x; rfl
  | succ n ih =>
    intro h x
    cases x with
    | none => rfl
    | some a =>
      simp only [pkg_free_fuel]
      cases h.cells[a]? with
      | none => rfl
      | some r =>
        simp only
        rw [array_release_cells _ (fun h e => ih h (some e)),
          array_release_cells _ (fun h e => ih h (some e))]

theorem pkg_free_void_cells (h : Heap) (e : Nat) : (pkg_free_void h e).cells = h.cells :=
  pkg_free_fuel_cells _ h (some e)

theorem read_release (h : Heap) (l : List Nat) (a : Nat) :
    (array_release pkg_free_void h l).read a = h.read a := by
  unfold Heap.read
  rw [array_release_cells _ pkg_free_void_cells]

theorem pkg_reset_read (h : Heap) (a : Nat) :
    (pkg_reset h (some a)).read a = (h.read a).map (fun r =>
      { r with name := sbuf_clear r.name, version := sbuf_clear r.version,
               origin := sbuf_clear r.origin, comment := sbuf_clear r.comment,
               desc := sbuf_clear r.desc, deps := array_reset r.deps,
               rdeps := array_reset r.rdeps, conflicts := array_reset r.conflicts,
               files := array_reset r.files }) := by
  simp only [pkg_reset, read_modify, read_release]
  cases h.read a <;> simp

theorem pkg_open_entry_files (c : collaborators) (p : Nat) (h : Heap) (ae : archive_entry)
    (hparse : ∀ h a buf, ((c.pkg_parse_manifest h a buf).read a).map (fun r => r.files)
      = (h.read a).map (fun r => r.files)) :
    ((pkg_open_entry c p h ae).read p).map (fun r => r.files)
      = ((h.read p).map (fun r => r.files)).map (fun fa =>
          if ae.pathname.head? = some '+' then fa
          else array_append fa { path := ae.pathname.take (c.path_size - 1), sha256 := [] }) := by
  have e1 : ∀ h : Heap,
      ((if ae.pathname = "+DESC".toList then
          (h.modify p (fun r => { r with desc := sbuf_cat r.desc (c_str ae.data) })).modify p
            (fun r => { r with desc := sbuf_finish r.desc })
        else h).read p).map (fun r => r.files) = (h.read p).map (fun r => r.files) := by
    intro h
    split
    · rw [read_modify, read_modify]
      cases h.read p <;> rfl
    · rfl
  have e2 : ∀ h : Heap,
      ((if ae.pathname = "+MANIFEST".toList then c.pkg_parse_manifest h p (c_str ae.data)
        else h).read p).map (fun r => r.files) = (h.read p).map (fun r => r.files) := by
    intro h
    split
    · exact hparse _ _ _
    · rfl
  unfold pkg_open_entry
  simp only []
  split
  · rw [e2, e1]
    cases h.read p <;> rfl
  · rw [read_modify, Option.map_map]
    have e3 := e2 (if ae.pathname = "+DESC".toList then
          (h.modify p (fun r => { r with desc := sbuf_cat r.desc (c_str ae.data) })).modify p
            (fun r => { r with desc := sbuf_finish r.desc })
        else h)
    rw [e1] at e3
    rw [← e3]
    simp only [Option.map_map]
    congr 1
    funext r
    simp [pkg_file_new, strlcpy_nil]

theorem pkg_open_loop_files (c : collaborators) (p : Nat)
    (hparse : ∀ h a buf, ((c.pkg_parse_manifest h a buf).read a).map (fun r => r.files)
      = (h.read a).map (fun r => r.files)) :
    ∀ (es : List archive_entry) (h : Heap) (l : List pkg_file),
      (h.read p).map (fun r => r.files) = some { data := some l } →
      ((pkg_open_loop c p es h).read p).map (fun r => r.files)
        = some { data := some (l ++
            (es.filter (fun ae => decide (ae.pathname.head? ≠ some '+'))).map
              (fun ae => { path := ae.pathname.take (c.path_size - 1), sha256 := [] })) } := by
  intro es
  induction es with
  | nil => intro h l hl; simpa [pkg_open_loop] using hl
  | cons ae es ih =>
    intro h l hl
    have hstep := pkg_open_entry_files c p h ae hparse
    rw [hl] at hstep
    simp only [pkg_open_loop]
    by_cases hp : ae.pathname.head? = some '+'
    · simp only [hp, if_true, Option.map_some'] at hstep
      rw [ih _ l hstep]
      simp [hp]
    · simp only [hp, if_false, Option.map_some', array_append] at hstep
      rw [ih _ _ hstep]
      simp [hp]

theorem pkg_open_init_ptr (h : Heap) : (pkg_open_init h).2 = h.cells.length := rfl

theorem pkg_open_init_read (h : Heap) :
    (pkg_open_init h).1.read h.cells.length = some pkg_opened := by
  have h0 : (pkg_new h).1.read h.cells.length = some pkg_calloc := by
    simp [pkg_new, Heap.read]
  simp only [pkg_open_init, pkg_new] at h0 ⊢
  simp only [read_modify, h0]
  simp [pkg_opened, pkg_calloc, array_init]

theorem pkg_open_some (c : collaborators) (fs : filesystem) (h : Heap) (path : Text)
    (out : Option Nat) (a : archive) (hopen : pkg_open_source c fs path = some a) :
    pkg_open c fs h path out
      = { ret := 0, heap := pkg_open_loop c h.cells.length a.entries (pkg_open_init h).1,
          pkg := some h.cells.length, warned := decide (a.status ≠ ARCHIVE_EOF) } := by
  simp only [pkg_open, hopen]
  rfl

/-- C8: for every archive that opens, and a manifest reader that leaves the
files collection of the record as it is, the files collection of the record
`pkg_open` returns holds exactly one File record per entry the stream yielded
whose name does not begin with `+`, in archive order, its path the entry's
name cut to the capacity of the path array and its checksum empty; this holds
whatever status ends the stream. -/
theorem C8_files_are_the_payload_entries (c : collaborators) (fs : filesystem) (h : Heap)
    (path : Text) (out : Option Nat) (a : archive)
    (hparse : ∀ h p buf, ((c.pkg_parse_manifest h p buf).read p).map (fun r => r.files)
      = (h.read p).map (fun r => r.files))
    (hopen : pkg_open_source c fs path = some a) :
    ∃ p, (pkg_open c fs h path out).pkg = some p
      ∧ ((pkg_open c fs h path out).heap.read p).map pkg_files
        = some (some ((a.entries.filter (fun ae => decide (ae.pathname.head? ≠ some '+'))).map
            (fun ae => { path := ae.pathname.take (c.path_size - 1), sha256 := [] }))) := by
  rw [pkg_open_some c fs h path out a hopen]
  refine ⟨h.cells.length, rfl, ?_⟩
  have hinit : ((pkg_open_init h).1.read h.cells.length).map (fun r => r.files)
      = some { data := some [] } := by
    rw [pkg_open_init_read]; rfl
  have hloop := pkg_open_loop_files c h.cells.length hparse a.entries _ [] hinit
  simp only [List.nil_append] at hloop
  cases hr : (pkg_open_loop c h.cells.length a.entries (pkg_open_init h).1).read h.cells.length with
  | none => rw [hr] at hloop; simp at hloop
  | some r =>
    rw [hr] at hloop
    simp only [Option.map_some', Option.some.injEq] at hloop
    simp [pkg_files, hloop]

/-- C8 at a concrete input: the archive that breaks off after five entries
yields the two payload paths, cut to seven characters. -/
theorem C8_files_witness :
    pkg_open_source collaborators_sample filesystem_sample "broken.txz".toList
        = some archive_broken
    ∧ ∃ p, (pkg_open collaborators_sample filesystem_sample heap_empty "broken.txz".toList
          none).pkg = some p
      ∧ ((pkg_open collaborators_sample filesystem_sample heap_empty "broken.txz".toList
          none).heap.read p).map pkg_files
        = some (some ((archive_broken.entries.filter
            (fun ae => decide (ae.pathname.head? ≠ some '+'))).map
            (fun ae => { path := ae.pathname.take (collaborators_sample.path_size - 1),
                         sha256 := [] }))) :=
  ⟨by decide,
    C8_files_are_the_payload_entries collaborators_sample filesystem_sample heap_empty
      "broken.txz".toList none archive_broken
      (fun h p buf => by
        simp only [collaborators_sample, read_modify, pkg_setname_some]
        cases h.read p <;> rfl)
      (by decide)⟩

/-- C10, as stated, fails: for the archive with no entries `pkg_open` returns
0 and a record tagged `PKG_FILE` whose dependency, conflict and file
collections are initialised and empty, but whose reverse-dependency collection
is not initialised (its `data` is NULL). -/
theorem C10_rdeps_left_uninitialised :
    (pkg_open collaborators_sample filesystem_sample heap_empty "empty.txz".toList none).ret = 0
    ∧ (pkg_open collaborators_sample filesystem_sample heap_empty "empty.txz".toList none).pkg
        = some 0
    ∧ ((pkg_open collaborators_sample filesystem_sample heap_empty "empty.txz".toList
        none).heap.read 0).map pkg_rdeps = some none
    ∧ ((pkg_open collaborators_sample filesystem_sample heap_empty "empty.txz".toList
        none).heap.read 0).map pkg_deps = some (some [])
    ∧ ((pkg_open collaborators_sample filesystem_sample heap_empty "empty.txz".toList
        none).heap.read 0).map pkg_conflicts = some (some [])
    ∧ ((pkg_open collaborators_sample filesystem_sample heap_empty "empty.txz".toList
        none).heap.read 0).map pkg_files = some (some []) := by
  decide

/-- C10, amended: for every archive that opens, the record `pkg_open` builds
is newly allocated (its pointer designated no record before), and when the
first entry is processed it is tagged `PKG_FILE`, its text fields are unset,
its dependency, conflict and file collections are initialised and empty and
its reverse-dependency collection is not initialised; for an archive with no
entries this is the record returned. -/
theorem C10_three_collections_initialised (c : collaborators) (fs : filesystem) (h : Heap)
    (path : Text) (out : Option Nat) (a : archive)
    (hopen : pkg_open_source c fs path = some a) :
    (pkg_open c fs h path out).pkg = some (pkg_open_init h).2
    ∧ h.read (pkg_open_init h).2 = none
    ∧ (pkg_open c fs h path out).heap
        = pkg_open_loop c (pkg_open_init h).2 a.entries (pkg_open_init h).1
    ∧ (∃ r, (pkg_open_init h).1.read (pkg_open_init h).2 = some r
        ∧ pkg_type r = pkg_t.PKG_FILE
        ∧ pkg_deps r = some [] ∧ pkg_conflicts r = some [] ∧ pkg_files r = some []
        ∧ pkg_rdeps r = none
        ∧ pkg_name r = none ∧ pkg_version r = none ∧ pkg_origin r = none
        ∧ pkg_comment r = none ∧ pkg_desc r = none
        ∧ (a.entries = [] → (pkg_open c fs h path out).heap.read (pkg_open_init h).2 = some r)) := by
  rw [pkg_open_some c fs h path out a hopen, pkg_open_init_ptr]
  refine ⟨rfl, by simp [Heap.read], rfl, pkg_opened, pkg_open_init_read h, rfl, rfl, rfl, rfl,
    rfl, rfl, rfl, rfl, rfl, rfl, ?_⟩
  intro he
  simp only [he, pkg_open_loop]
  exact pkg_open_init_read h

/-- C10 at a concrete input: the archive that breaks off after five
entries. -/
theorem C10_three_collections_witness :
    pkg_open_source collaborators_sample filesystem_sample "broken.txz".toList
        = some archive_broken
    ∧ (pkg_open collaborators_sample filesystem_sample heap_populated "broken.txz".toList
        none).pkg = some (pkg_open_init heap_populated).2
    ∧ (∃ r, (pkg_open_init heap_populated).1.read (pkg_open_init heap_populated).2 = some r
        ∧ pkg_type r = pkg_t.PKG_FILE
        ∧ pkg_deps r = some [] ∧ pkg_conflicts r = some [] ∧ pkg_files r = some []
        ∧ pkg_rdeps r = none) :=
  have w := C10_three_collections_initialised collaborators_sample filesystem_sample
    heap_populated "broken.txz".toList none archive_broken (by decide)
  ⟨by decide, w.1, by
    obtain ⟨r, h1, h2, h3, h4, h5, h6, _⟩ := w.2.2.2
    exact ⟨r, h1, h2, h3, h4, h5, h6⟩⟩

/-! ### Dependency resolution -/

/-- C5 at a failing input: a record made by `pkg_new` and `pkg_setname` has
zero dependency entries and a dependency collection that was never
initialised; `pkg_resolvdeps` reads `deps[0]` through the NULL `data` pointer
and faults instead of leaving a collection of zero entries. -/
theorem C5_resolvdeps_faults_without_deps :
    heap_no_deps.read 0 = some (pkg_setname pkg_calloc (some "foo".toList)).2
    ∧ pkg_numdeps (pkg_setname pkg_calloc (some "foo".toList)).2 = 0
    ∧ pkg_deps (pkg_setname pkg_calloc (some "foo".toList)).2 = none
    ∧ pkg_resolvdeps pkgdb_both heap_no_deps 0 = none := by
  decide

/-- C6 at a failing input: with both dependencies installed, `pkg_resolvdeps`
returns 0 and stores the one record allocated before the loop (pointer 3) at
index 0 and at index 1; that record holds the package of the second
dependency, `baz/quux`, so nothing at index 0 holds `baz/qux`; and releasing
the resolved record afterwards hands pointer 3 to `free` twice. -/
theorem C6_matches_share_one_record :
    (pkg_resolvdeps pkgdb_both heap_two_deps 0).map (fun res => res.ret) = some 0
    ∧ (pkg_resolvdeps pkgdb_both heap_two_deps 0).map (fun res => res.heap.deps_of 0)
        = some [3, 3]
    ∧ (pkg_resolvdeps pkgdb_both heap_two_deps 0).map
        (fun res => (res.heap.read 3).map (fun r => (pkg_type r, pkg_origin r, pkg_name r)))
        = some (some (pkg_t.PKG_INSTALLED, some "baz/quux".toList, some "quux".toList))
    ∧ (pkg_resolvdeps pkgdb_both heap_two_deps 0).map
        (fun res => (pkg_free res.heap (some 0)).freed) = some [1, 2, 3, 3, 0] := by
  decide

/-- C7 at a failing input: on a record just created by `pkg_new`, whose
dependency collection was never initialised, `pkg_resolvdeps` does not return
0: it issues no query and faults on the read of `deps[0]` through the NULL
`data` pointer, whatever the database holds. -/
theorem C7_resolvdeps_faults_on_new_record :
    (pkg_new heap_empty).1.read (pkg_new heap_empty).2 = some pkg_calloc
    ∧ pkg_deps pkg_calloc = none
    ∧ pkg_resolvdeps [] (pkg_new heap_empty).1 (pkg_new heap_empty).2 = none
    ∧ pkg_resolvdeps pkgdb_both (pkg_new heap_empty).1 (pkg_new heap_empty).2 = none := by
  decide

theorem modify_length (h : Heap) (a : Nat) (f : pkg → pkg) :
    (h.modify a f).cells.length = h.cells.length := by
  unfold Heap.modify
  cases h.cells[a]? <;> simp

theorem read_modify_ne (h : Heap) (a b : Nat) (f : pkg → pkg) (hne : b ≠ a) :
    (h.modify a f).read b = h.read b := by
  unfold Heap.modify Heap.read
  cases h.cells[a]? with
  | none => rfl
  | some r => simp [List.getElem?_set, Ne.symm hne]

theorem heap_frame_refl (p : Nat) (h : Heap) : heap_frame p h h :=
  ⟨rfl, fun _ _ => rfl⟩

theorem heap_frame_trans (p : Nat) (h1 h2 h3 : Heap) (h12 : heap_frame p h1 h2)
    (h23 : heap_frame p h2 h3) : heap_frame p h1 h3 :=
  ⟨h23.1.trans h12.1, fun b hb => (h23.2 b hb).trans (h12.2 b hb)⟩

theorem heap_frame_modify (p : Nat) (h : Heap) (f : pkg → pkg) :
    heap_frame p h (h.modify p f) :=
  ⟨modify_length h p f, fun b hb => read_modify_ne h p b f hb⟩

theorem pkg_free_cells (h : Heap) (x : Option Nat) : (pkg_free h x).cells = h.cells :=
  pkg_free_fuel_cells _ h x

theorem heap_frame_release (p : Nat) (h : Heap) (l : List Nat) :
    heap_frame p h (array_release pkg_free_void h l) := by
  have hc := array_release_cells pkg_free_void pkg_free_void_cells l h
  exact ⟨by rw [hc], fun b _ => by unfold Heap.read; rw [hc]⟩

theorem heap_frame_reset (p : Nat) (h : Heap) : heap_frame p h (pkg_reset h (some p)) := by
  unfold pkg_reset
  simp only []
  refine heap_frame_trans p _ _ _ ?_ (heap_frame_modify p _ _)
  refine heap_frame_trans p _ _ _ ?_ (heap_frame_modify p _ _)
  refine heap_frame_trans p _ _ _ ?_ (heap_frame_modify p _ _)
  refine heap_frame_trans p _ _ _ ?_ (heap_frame_release p _ _)
  refine heap_frame_trans p _ _ _ ?_ (heap_frame_modify p _ _)
  refine heap_frame_trans p _ _ _ ?_ (heap_frame_release p _ _)
  refine heap_frame_trans p _ _ _ ?_ (heap_frame_modify p _ _)
  refine heap_frame_trans p _ _ _ ?_ (heap_frame_modify p _ _)
  refine heap_frame_trans p _ _ _ ?_ (heap_frame_modify p _ _)
  refine heap_frame_trans p _ _ _ ?_ (heap_frame_modify p _ _)
  exact heap_frame_modify p _ _

theorem next_pkg_frame (h : Heap) (it : pkgdb_it) (p : Nat) :
    heap_frame p h (pkgdb_it_next_pkg h it p).2.1 := by
  cases it with
  | nil => exact heap_frame_refl p h
  | cons row rest =>
    simp only [pkgdb_it_next_pkg]
    refine heap_frame_trans p _ _ _ ?_ (heap_frame_modify p _ _)
    refine heap_frame_trans p _ _ _ ?_ (heap_frame_modify p _ _)
    refine heap_frame_trans p _ _ _ ?_ (heap_frame_modify p _ _)
    refine heap_frame_trans p _ _ _ ?_ (heap_frame_modify p _ _)
    refine heap_frame_trans p _ _ _ ?_ (heap_frame_modify p _ _)
    exact heap_frame_reset p _

theorem next_pkg_found (h : Heap) (it : pkgdb_it) (p : Nat) :
    ((pkgdb_it_next_pkg h it p).1 = 0 ↔ it ≠ []) := by
  cases it <;> simp [pkgdb_it_next_pkg]

theorem read_modify_eq (h : Heap) (a b : Nat) (f : pkg → pkg) :
    (h.modify a f).read b = if b = a then (h.read a).map f else h.read b := by
  by_cases hb : b = a
  · subst hb; simp [read_modify]
  · simp [hb, read_modify_ne h a b f hb]

theorem pkg_free_read (h : Heap) (x : Option Nat) (b : Nat) :
    (pkg_free h x).read b = h.read b := by
  unfold Heap.read
  rw [pkg_free_cells]

theorem pkg_resolvdeps_body_read (db : pkgdb) (dr : pkg) (pkg p i d : Nat) (h : Heap)
    (hpkg : pkg ≠ p) (b : Nat) (hb : b ≠ p) :
    (pkg_resolvdeps_body db dr pkg p i d h).read b =
      if pkgdb_query db (pkg_origin dr) = [] then
        (if b = d then
          (h.read d).map (fun r => { r with type := pkg_t.PKG_NOTFOUND })
        else h.read b)
      else
        (if b = pkg then
          (h.read pkg).map (fun r =>
            { r with deps := { data := r.deps.data.map (fun l => l.set i p) } })
        else h.read b) := by
  unfold pkg_resolvdeps_body
  simp only []
  have hfr := next_pkg_frame h (pkgdb_query db (pkg_origin dr)) p
  have hfd := next_pkg_found h (pkgdb_query db (pkg_origin dr)) p
  generalize pkgdb_it_next_pkg h (pkgdb_query db (pkg_origin dr)) p = x at hfr hfd
  obtain ⟨found, hn, rest⟩ := x
  simp only at hfr hfd ⊢
  by_cases hq : pkgdb_query db (pkg_origin dr) = []
  · have hf : found ≠ 0 := fun h0 => (hfd.mp h0) hq
    simp only [hq, hf, if_true, if_false, read_modify_eq]
    by_cases hbd : b = d
    · subst hbd; simp [hfr.2 b hb]
    · simp [hbd, hfr.2 b hb]
  · have hf : found = 0 := hfd.mpr hq
    simp only [hq, hf, if_true, if_false, read_modify_eq, pkg_free_read, hb, hpkg]
    by_cases hbp : b = pkg
    · subst hbp; simp [hfr.2 b hb]
    · simp [hbp, hfr.2 b hb]

theorem pkg_resolvdeps_body_origin (db : pkgdb) (dr : pkg) (pkg p i d : Nat) (h : Heap)
    (hpkg : pkg ≠ p) (b : Nat) (hb : b ≠ p) :
    ((pkg_resolvdeps_body db dr pkg p i d h).read b).map pkg_origin
      = (h.read b).map pkg_origin := by
  rw [pkg_resolvdeps_body_read db dr pkg p i d h hpkg b hb]
  split
  · split
    · next hbd => subst hbd; cases h.read b <;> rfl
    · rfl
  · split
    · next hbp => subst hbp; cases h.read b <;> rfl
    · rfl

theorem pkg_resolvdeps_body_type (db : pkgdb) (dr : pkg) (pkg p i d : Nat) (h : Heap)
    (hpkg : pkg ≠ p) (b : Nat) (hb : b ≠ p)
    (ht : (h.read b).map pkg_type = some pkg_t.PKG_NOTFOUND) :
    ((pkg_resolvdeps_body db dr pkg p i d h).read b).map pkg_type
      = some pkg_t.PKG_NOTFOUND := by
  rw [pkg_resolvdeps_body_read db dr pkg p i d h hpkg b hb]
  split
  · split
    · next hbd =>
      subst hbd
      cases hr : h.read b with
      | none => rw [hr] at ht; simp at ht
      | some r => rfl
    · exact ht
  · split
    · next hbp =>
      subst hbp
      cases hr : h.read b with
      | none => rw [hr] at ht; simp at ht
      | some r => rw [hr] at ht; simpa [pkg_type] using ht
    · exact ht

theorem pkg_resolvdeps_body_deps (db : pkgdb) (dr : pkg) (pkg p i d : Nat) (h : Heap)
    (hpkg : pkg ≠ p) (l : List Nat) (hl : (h.read pkg).map pkg_deps = some (some l)) :
    ((pkg_resolvdeps_body db dr pkg p i d h).read pkg).map pkg_deps
      = some (some (if pkgdb_query db (pkg_origin dr) = [] then l else l.set i p)) := by
  rw [pkg_resolvdeps_body_read db dr pkg p i d h hpkg pkg hpkg]
  cases hr : h.read pkg with
  | none => rw [hr] at hl; simp at hl
  | some r =>
    rw [hr] at hl
    simp only [Option.map_some', Option.some.injEq, pkg_deps] at hl
    split
    · split
      · next hbd => subst hbd; simp [hr, pkg_deps, hl]
      · simp [pkg_deps, hl]
    · simp [pkg_deps, hl]

theorem pkg_resolvdeps_body_retag (db : pkgdb) (dr : pkg) (pkg p i d : Nat) (h : Heap)
    (hpkg : pkg ≠ p) (hd : d ≠ p) (hdr : h.read d = some dr)
    (hq : pkgdb_query db (pkg_origin dr) = []) :
    ((pkg_resolvdeps_body db dr pkg p i d h).read d).map pkg_type
      = some pkg_t.PKG_NOTFOUND := by
  rw [pkg_resolvdeps_body_read db dr pkg p i d h hpkg d hd]
  simp [hq, hdr, pkg_type]

theorem pkg_resolvdeps_loop_spec (db : pkgdb) (pkg p : Nat) (orig : Nat → Option Text)
    (hpkg : pkg ≠ p) :
    ∀ (k i : Nat) (h : Heap) (qs : List (Option Text)) (l : List Nat),
      (h.read pkg).map pkg_deps = some (some l) →
      i + k = l.length →
      (∀ j d, i ≤ j → l[j]? = some d →
        d ≠ p ∧ (h.read d).map pkg_origin = some (orig d)) →
      ∃ res l', pkg_resolvdeps_loop db pkg p (k + 1) i h qs = some res
        ∧ res.ret = 0
        ∧ res.queries = qs ++ (l.drop i).map orig
        ∧ (res.heap.read pkg).map pkg_deps = some (some l')
        ∧ l'.length = l.length
        ∧ (∀ j, j < i → l'[j]? = l[j]?)
        ∧ (∀ b, b ≠ p → (h.read b).map pkg_type = some pkg_t.PKG_NOTFOUND →
            (res.heap.read b).map pkg_type = some pkg_t.PKG_NOTFOUND)
        ∧ (∀ b, b ≠ p → (res.heap.read b).map pkg_origin = (h.read b).map pkg_origin)
        ∧ (∀ j d, i ≤ j → l[j]? = some d →
            (pkgdb_query db (orig d) = [] →
              l'[j]? = some d ∧ (res.heap.read d).map pkg_type = some pkg_t.PKG_NOTFOUND)
            ∧ (pkgdb_query db (orig d) ≠ [] → l'[j]? = some p)) := by
  intro k
  induction k with
  | zero =>
    intro i h qs l hl hik hv
    have hil : i = l.length := by omega
    cases hr : h.read pkg with
    | none => rw [hr] at hl; simp at hl
    | some r =>
      rw [hr] at hl
      simp only [Option.map_some', Option.some.injEq] at hl
      refine ⟨{ ret := 0, heap := h, queries := qs }, l, ?_, rfl, ?_, ?_, rfl, fun _ _ => rfl,
        fun _ _ ht => ht, fun _ _ => rfl, ?_⟩
      · simp [pkg_resolvdeps_loop, hr, hl, hil]
      · simp [hil]
      · simp [hr, hl]
      · intro j d hj hjd
        have : j < l.length := by
          rcases List.getElem?_eq_some_iff.mp hjd with ⟨hlt, _⟩
          exact hlt
        omega
  | succ k ih =>
    intro i h qs l hl hik hv
    have hil : i < l.length := by omega
    have hid : l[i]? = some l[i] := List.getElem?_eq_getElem hil
    obtain ⟨hdp, hdo⟩ := hv i l[i] (Nat.le_refl i) hid
    cases hr : h.read pkg with
    | none => rw [hr] at hl; simp at hl
    | some r =>
      cases hdr : h.read l[i] with
      | none => rw [hdr] at hdo; simp at hdo
      | some dr =>
        have hl' := hl
        rw [hr] at hl'
        simp only [Option.map_some', Option.some.injEq] at hl'
        rw [hdr] at hdo
        simp only [Option.map_some', Option.some.injEq] at hdo
        have hdeps2 := pkg_resolvdeps_body_deps db dr pkg p i l[i] h hpkg l hl
        have hlen2 : (if pkgdb_query db (pkg_origin dr) = [] then l else l.set i p).length
            = l.length := by
          split <;> simp
        have hget2 : ∀ j, j ≠ i →
            (if pkgdb_query db (pkg_origin dr) = [] then l else l.set i p)[j]? = l[j]? := by
          intro j hj
          split
          · rfl
          · exact List.getElem?_set_ne (Ne.symm hj)
        obtain ⟨res, l', hrun, hret, hqs, hdeps, hlen, hlow, htype, horig, hent⟩ :=
          ih (i + 1) (pkg_resolvdeps_body db dr pkg p i l[i] h) (qs ++ [pkg_origin dr])
            (if pkgdb_query db (pkg_origin dr) = [] then l else l.set i p) hdeps2
            (by rw [hlen2]; omega)
            (fun j d hj hjd => by
              rw [hget2 j (by omega)] at hjd
              obtain ⟨h1, h2⟩ := hv j d (by omega) hjd
              exact ⟨h1, by rw [pkg_resolvdeps_body_origin db dr pkg p i l[i] h hpkg d h1]
                            exact h2⟩)
        refine ⟨res, l', ?_, hret, ?_, hdeps, by rw [hlen, hlen2], ?_, ?_, ?_, ?_⟩
        · rw [← hrun]
          simp [pkg_resolvdeps_loop, hr, hl', hid, hdr]
        · rw [hqs, List.drop_eq_getElem_cons hil]
          have hdrop : (if pkgdb_query db (pkg_origin dr) = [] then l else l.set i p).drop (i + 1)
              = l.drop (i + 1) := by
            split
            · rfl
            · exact List.drop_set_of_lt p l (Nat.lt_succ_self i)
          rw [hdrop, hdo]
          simp only [List.append_assoc, List.singleton_append, List.map_cons]
        · intro j hj
          rw [hlow j (by omega), hget2 j (by omega)]
        · intro b hb ht
          exact htype b hb (pkg_resolvdeps_body_type db dr pkg p i l[i] h hpkg b hb ht)
        · intro b hb
          rw [horig b hb, pkg_resolvdeps_body_origin db dr pkg p i l[i] h hpkg b hb]
        · intro j d hj hjd
          by_cases hji : j = i
          · subst hji
            rw [hid] at hjd
            simp only [Option.some.injEq] at hjd
            subst hjd
            rw [hlow j (Nat.lt_succ_self j), ← hdo]
            refine ⟨fun hq => ?_, fun hq => ?_⟩
            · simp only [hq, if_true]
              exact ⟨hid, htype _ hdp
                (pkg_resolvdeps_body_retag db dr pkg p j l[j] h hpkg hdp hdr hq)⟩
            · simp only [hq, if_false]
              exact List.getElem?_set_self hil
          · exact hent j d (by omega) (by rw [hget2 j hji]; exact hjd)

theorem pkg_new_read_old (h : Heap) (b : Nat) (r : pkg) (hb : h.read b = some r) :
    b < h.cells.length ∧ (pkg_new h).1.read b = some r := by
  unfold Heap.read at hb
  rcases List.getElem?_eq_some_iff.mp hb with ⟨hlt, _⟩
  refine ⟨hlt, ?_⟩
  simp only [pkg_new, Heap.read]
  rw [List.getElem?_append_left hlt]
  exact hb

/-- On a record whose dependency collection is initialised and whose entries
designate records, `pkg_resolvdeps` returns 0 after one exact-match query per
entry, in collection order, each for the origin the entry had at the call;
the collection keeps its length; an entry whose origin has no match stays at
its index, tagged `PKG_NOTFOUND`, its origin as before; an entry whose origin
has a match is replaced by the scratch record allocated at the call. -/
theorem pkg_resolvdeps_initialised (db : pkgdb) (h : Heap) (pkg : Nat) (r : Libpkg.pkg)
    (l : List Nat) (hr : h.read pkg = some r) (hl : pkg_deps r = some l)
    (hv : ∀ d, d ∈ l → ∃ dr, h.read d = some dr) :
    ∃ (res : resolv_result) (l' : List Nat), pkg_resolvdeps db h pkg = some res
      ∧ res.ret = 0
      ∧ res.queries = l.map (fun d => (h.read d).bind pkg_origin)
      ∧ res.queries.length = pkg_numdeps r
      ∧ (res.heap.read pkg).map pkg_deps = some (some l')
      ∧ l'.length = l.length
      ∧ (∀ (i d : Nat), l[i]? = some d →
          (pkgdb_query db ((h.read d).bind pkg_origin) = [] →
            l'[i]? = some d
              ∧ (res.heap.read d).map pkg_type = some pkg_t.PKG_NOTFOUND
              ∧ (res.heap.read d).map pkg_origin = (h.read d).map pkg_origin)
          ∧ (pkgdb_query db ((h.read d).bind pkg_origin) ≠ [] →
            l'[i]? = some h.cells.length)) := by
  obtain ⟨hlt, hr1⟩ := pkg_new_read_old h pkg r hr
  have hne : pkg ≠ h.cells.length := Nat.ne_of_lt hlt
  have hnum : pkg_numdeps r = l.length := by
    simp only [pkg_deps] at hl
    simp [pkg_numdeps, array.len, hl]
  have hvalid : ∀ j d, 0 ≤ j → l[j]? = some d →
      d ≠ h.cells.length
        ∧ ((pkg_new h).1.read d).map pkg_origin = some ((h.read d).bind pkg_origin) := by
    intro j d _ hjd
    obtain ⟨dr, hdr⟩ := hv d (List.getElem?_mem hjd)
    obtain ⟨hdlt, hdr1⟩ := pkg_new_read_old h d dr hdr
    exact ⟨Nat.ne_of_lt hdlt, by rw [hdr1, hdr]; rfl⟩
  obtain ⟨res, l', hrun, hret, hqs, hdeps, hlen, _, _, horig, hent⟩ :=
    pkg_resolvdeps_loop_spec db pkg h.cells.length (fun d => (h.read d).bind pkg_origin) hne
      l.length 0 (pkg_new h).1 [] l (by rw [hr1]; simp [hl]) (by simp) hvalid
  refine ⟨res, l', ?_, hret, by simpa using hqs, by rw [hqs, hnum]; simp, hdeps, hlen, ?_⟩
  · simp only [pkg_resolvdeps, hr, hnum]
    exact hrun
  · intro i d hid
    obtain ⟨hdne, _⟩ := hvalid i d (Nat.zero_le i) hid
    obtain ⟨dr, hdr⟩ := hv d (List.getElem?_mem hid)
    obtain ⟨_, hdr1⟩ := pkg_new_read_old h d dr hdr
    obtain ⟨h1, h2⟩ := hent i d (Nat.zero_le i) hid
    refine ⟨fun hq => ⟨(h1 hq).1, (h1 hq).2, ?_⟩, h2⟩
    rw [horig d hdne, hdr1, hdr]

/-- The statement above at a concrete input: two dependencies, the second of
which is installed. -/
theorem pkg_resolvdeps_initialised_example :
    (pkg_resolvdeps pkgdb_second_only heap_two_deps 0).map (fun res => res.ret) = some 0
    ∧ (pkg_resolvdeps pkgdb_second_only heap_two_deps 0).map (fun res => res.queries)
        = some [some "baz/qux".toList, some "baz/quux".toList]
    ∧ (pkg_resolvdeps pkgdb_second_only heap_two_deps 0).map (fun res => res.heap.deps_of 0)
        = some [1, 3]
    ∧ (pkg_resolvdeps pkgdb_second_only heap_two_deps 0).map
        (fun res => (res.heap.read 1).map (fun r => (pkg_type r, pkg_origin r)))
        = some (some (pkg_t.PKG_NOTFOUND, some "baz/qux".toList))
    ∧ (pkg_resolvdeps pkgdb_second_only heap_two_deps 0).map
        (fun res => (res.heap.read 3).map (fun r => (pkg_type r, pkg_origin r, pkg_name r)))
        = some (some (pkg_t.PKG_INSTALLED, some "baz/quux".toList, some "quux".toList)) := by
  decide

/-- The record `pkg_new` allocates is `pkg_calloc`, at a pointer that
designated no record before; the records already there stay as they are. -/
theorem pkg_new_read (h : Heap) :
    h.read (pkg_new h).2 = none
    ∧ (pkg_new h).1.read (pkg_new h).2 = some pkg_calloc
    ∧ ∀ b r, h.read b = some r → (pkg_new h).1.read b = some r := by
  refine ⟨by simp [pkg_new, Heap.read], by simp [pkg_new, Heap.read], ?_⟩
  intro b r hb
  exact (pkg_new_read_old h b r hb).2

/-! ### The text fields of every record pkg.c builds are unset or set -/

/-- A record just built by `pkg_new` has all its text fields unset. -/
theorem texts_settled_calloc : pkg_calloc.texts_settled :=
  ⟨Or.inr rfl, Or.inr rfl, Or.inr rfl, Or.inr rfl, Or.inr rfl⟩

/-- A setter or adder leaves every text field unset or set, whatever its
arguments and whatever the record held. -/
theorem texts_settled_run (ps ss : Nat) (c : call) (p : pkg) (hp : p.texts_settled) :
    (call.run ps ss c p).2.texts_settled := by
  obtain ⟨h1, h2, h3, h4, h5⟩ := hp
  cases c with
  | adddep d => cases d <;> exact ⟨h1, h2, h3, h4, h5⟩
  | addfile a b => cases a <;> cases b <;> exact ⟨h1, h2, h3, h4, h5⟩
  | addconflict g => cases g <;> exact ⟨h1, h2, h3, h4, h5⟩
  | setname t =>
    cases t with
    | none => exact ⟨h1, h2, h3, h4, h5⟩
    | some t =>
      simp only [call.run, pkg_setname_some]
      exact ⟨Or.inl rfl, h2, h3, h4, h5⟩
  | setversion t =>
    cases t with
    | none => exact ⟨h1, h2, h3, h4, h5⟩
    | some t =>
      simp only [call.run, pkg_setversion_some]
      exact ⟨h1, Or.inl rfl, h3, h4, h5⟩
  | setorigin t =>
    cases t with
    | none => exact ⟨h1, h2, h3, h4, h5⟩
    | some t =>
      simp only [call.run, pkg_setorigin_some]
      exact ⟨h1, h2, Or.inl rfl, h4, h5⟩
  | setcomment t =>
    cases t with
    | none => exact ⟨h1, h2, h3, h4, h5⟩
    | some t =>
      simp only [call.run, pkg_setcomment_some]
      exact ⟨h1, h2, h3, Or.inl rfl, h5⟩
  | setdesc t =>
    cases t with
    | none => exact ⟨h1, h2, h3, h4, h5⟩
    | some t =>
      simp only [call.run, pkg_setdesc_some]
      exact ⟨h1, h2, h3, h4, Or.inl rfl⟩

/-- Every record reached from a new record by a sequence of setter and adder
calls has all its text fields unset or set. -/
theorem texts_settled_run_calls (ps ss : Nat) (cs : List call) :
    ∀ p : pkg, p.texts_settled → (run_calls ps ss cs p).2.texts_settled := by
  induction cs with
  | nil => intro p hp; exact hp
  | cons c cs ih =>
    intro p hp
    simp only [run_calls]
    exact ih _ (texts_settled_run ps ss c p hp)

theorem heap_settled_modify (h : Heap) (a : Nat) (f : pkg → pkg) (hh : heap_settled h)
    (hf : ∀ r, r.texts_settled → (f r).texts_settled) : heap_settled (h.modify a f) := by
  intro b r hb
  rw [read_modify_eq] at hb
  split at hb
  · cases hr : h.read a with
    | none => rw [hr] at hb; simp at hb
    | some r0 =>
      rw [hr] at hb
      simp only [Option.map_some', Option.some.injEq] at hb
      rw [← hb]
      exact hf r0 (hh a r0 hr)
  · exact hh b r hb

theorem heap_settled_cells (h h' : Heap) (hc : h'.cells = h.cells) (hh : heap_settled h) :
    heap_settled h' := by
  intro b r hb
  unfold Heap.read at hb
  rw [hc] at hb
  exact hh b r hb

/-- `pkg_new` keeps the text fields of every record of the heap unset or set. -/
theorem heap_settled_new (h : Heap) (hh : heap_settled h) : heap_settled (pkg_new h).1 := by
  intro b r hb
  simp only [pkg_new, Heap.read] at hb
  by_cases hlt : b < h.cells.length
  · rw [List.getElem?_append_left hlt] at hb
    exact hh b r hb
  · rw [List.getElem?_append_right (Nat.le_of_not_lt hlt)] at hb
    by_cases hz : b - h.cells.length = 0
    · rw [hz] at hb
      simp only [List.getElem?_cons_zero, Option.some.injEq] at hb
      rw [← hb]
      exact texts_settled_calloc
    · obtain ⟨n, hn⟩ := Nat.exists_eq_succ_of_ne_zero hz
      rw [hn] at hb
      simp at hb

/-- `pkg_reset` keeps the text fields of every record of the heap unset or set. -/
theorem heap_settled_reset (h : Heap) (x : Option Nat) (hh : heap_settled h) :
    heap_settled (pkg_reset h x) := by
  cases x with
  | none => exact hh
  | some a =>
    unfold pkg_reset
    simp only []
    refine heap_settled_modify _ _ _ ?_ (fun r hr => hr)
    refine heap_settled_modify _ _ _ ?_ (fun r hr => hr)
    refine heap_settled_modify _ _ _ ?_ (fun r hr => hr)
    refine heap_settled_cells _ _ (array_release_cells _ pkg_free_void_cells _ _) ?_
    refine heap_settled_modify _ _ _ ?_ (fun r hr => hr)
    refine heap_settled_cells _ _ (array_release_cells _ pkg_free_void_cells _ _) ?_
    refine heap_settled_modify _ _ _ ?_
      (fun r hr => ⟨hr.1, hr.2.1, hr.2.2.1, hr.2.2.2.1, Or.inr rfl⟩)
    refine heap_settled_modify _ _ _ ?_
      (fun r hr => ⟨hr.1, hr.2.1, hr.2.2.1, Or.inr rfl, hr.2.2.2.2⟩)
    refine heap_settled_modify _ _ _ ?_
      (fun r hr => ⟨hr.1, hr.2.1, Or.inr rfl, hr.2.2.2.1, hr.2.2.2.2⟩)
    refine heap_settled_modify _ _ _ ?_
      (fun r hr => ⟨hr.1, Or.inr rfl, hr.2.2.1, hr.2.2.2.1, hr.2.2.2.2⟩)
    exact heap_settled_modify _ _ _ hh
      (fun r hr => ⟨Or.inr rfl, hr.2.1, hr.2.2.1, hr.2.2.2.1, hr.2.2.2.2⟩)

/-- After `pkg_reset` the record itself has all five text fields unset,
whatever it held before. -/
theorem texts_settled_reset (h : Heap) (a : Nat) (r : pkg) (hr : h.read a = some r) :
    ∃ r', (pkg_reset h (some a)).read a = some r' ∧ r'.texts_settled := by
  refine ⟨_, by rw [pkg_reset_read, hr]; rfl, ?_⟩
  exact ⟨Or.inr rfl, Or.inr rfl, Or.inr rfl, Or.inr rfl, Or.inr rfl⟩

theorem heap_settled_free (h : Heap) (x : Option Nat) (hh : heap_settled h) :
    heap_settled (pkg_free h x) :=
  heap_settled_cells _ _ (pkg_free_cells h x) hh

theorem heap_settled_next_pkg (h : Heap) (it : pkgdb_it) (p : Nat) (hh : heap_settled h) :
    heap_settled (pkgdb_it_next_pkg h it p).2.1 := by
  cases it with
  | nil => exact hh
  | cons row rest =>
    simp only [pkgdb_it_next_pkg]
    refine heap_settled_modify _ _ _ ?_
      (fun r hr => texts_settled_run 0 0 (call.setdesc (some row.desc)) r hr)
    refine heap_settled_modify _ _ _ ?_
      (fun r hr => texts_settled_run 0 0 (call.setcomment (some row.comment)) r hr)
    refine heap_settled_modify _ _ _ ?_
      (fun r hr => texts_settled_run 0 0 (call.setversion (some row.version)) r hr)
    refine heap_settled_modify _ _ _ ?_
      (fun r hr => texts_settled_run 0 0 (call.setname (some row.name)) r hr)
    refine heap_settled_modify _ _ _ ?_
      (fun r hr => texts_settled_run 0 0 (call.setorigin (some row.origin)) r hr)
    exact heap_settled_reset h (some p) hh

theorem heap_settled_resolvdeps_body (db : pkgdb) (dr : pkg) (pkg p i d : Nat) (h : Heap)
    (hh : heap_settled h) : heap_settled (pkg_resolvdeps_body db dr pkg p i d h) := by
  unfold pkg_resolvdeps_body
  simp only []
  have hn := heap_settled_next_pkg h (pkgdb_query db (pkg_origin dr)) p hh
  generalize pkgdb_it_next_pkg h (pkgdb_query db (pkg_origin dr)) p = x at hn
  obtain ⟨found, h1, rest⟩ := x
  simp only at hn ⊢
  split
  · refine heap_settled_modify _ _ _ ?_ (fun r hr => hr)
    refine heap_settled_free _ _ ?_
    exact heap_settled_modify _ _ _ hn (fun r hr => hr)
  · exact heap_settled_modify _ _ _ hn (fun r hr => hr)

theorem heap_settled_resolvdeps_loop (db : pkgdb) (pkg p : Nat) :
    ∀ (fuel i : Nat) (h : Heap) (qs : List (Option Text)) (res : resolv_result),
      heap_settled h → pkg_resolvdeps_loop db pkg p fuel i h qs = some res →
      heap_settled res.heap := by
  intro fuel
  induction fuel with
  | zero => intro i h qs res _ hrun; simp [pkg_resolvdeps_loop] at hrun
  | succ fuel ih =>
    intro i h qs res hh hrun
    simp only [pkg_resolvdeps_loop] at hrun
    cases hr : h.read pkg with
    | none => rw [hr] at hrun; simp at hrun
    | some r =>
      rw [hr] at hrun
      simp only at hrun
      cases hl : pkg_deps r with
      | none => rw [hl] at hrun; simp at hrun
      | some l =>
        rw [hl] at hrun
        simp only at hrun
        cases hd : l[i]? with
        | none =>
          rw [hd] at hrun
          simp only [Option.some.injEq] at hrun
          rw [← hrun]
          exact hh
        | some d =>
          rw [hd] at hrun
          simp only at hrun
          cases hdr : h.read d with
          | none => rw [hdr] at hrun; simp at hrun
          | some dr =>
            rw [hdr] at hrun
            simp only at hrun
            exact ih _ _ _ res (heap_settled_resolvdeps_body db dr pkg p i d h hh) hrun

/-- `pkg_resolvdeps` keeps the text fields of every record of the heap unset
or set; so does the scratch record it fills. -/
theorem heap_settled_resolvdeps (db : pkgdb) (h : Heap) (pkg : Nat) (res : resolv_result)
    (hh : heap_settled h) (hrun : pkg_resolvdeps db h pkg = some res) :
    heap_settled res.heap := by
  unfold pkg_resolvdeps at hrun
  cases hr : h.read pkg with
  | none => rw [hr] at hrun; simp at hrun
  | some r =>
    rw [hr] at hrun
    simp only at hrun
    exact heap_settled_resolvdeps_loop db pkg _ _ _ _ _ res (heap_settled_new h hh) hrun

theorem heap_settled_modify_twice (h : Heap) (a : Nat) (f g : pkg → pkg) (hh : heap_settled h)
    (hfg : ∀ r, r.texts_settled → (g (f r)).texts_settled) :
    heap_settled ((h.modify a f).modify a g) := by
  intro b r hb
  by_cases hba : b = a
  · subst hba
    rw [read_modify, read_modify] at hb
    cases hr : h.read b with
    | none => rw [hr] at hb; simp at hb
    | some r0 =>
      rw [hr] at hb
      simp only [Option.map_some', Option.some.injEq] at hb
      rw [← hb]
      exact hfg r0 (hh b r0 hr)
  · rw [read_modify_ne _ _ _ _ hba, read_modify_ne _ _ _ _ hba] at hb
    exact hh b r hb

theorem heap_settled_open_entry (c : collaborators) (p : Nat) (h : Heap) (ae : archive_entry)
    (hparse : ∀ h p buf, heap_settled h → heap_settled (c.pkg_parse_manifest h p buf))
    (hh : heap_settled h) : heap_settled (pkg_open_entry c p h ae) := by
  unfold pkg_open_entry
  simp only []
  have h1 : heap_settled
      (if ae.pathname = "+DESC".toList then
        (h.modify p (fun r => { r with desc := sbuf_cat r.desc (c_str ae.data) })).modify p
          (fun r => { r with desc := sbuf_finish r.desc })
      else h) := by
    split
    · exact heap_settled_modify_twice _ _ _ _ hh
        (fun r hr => ⟨hr.1, hr.2.1, hr.2.2.1, hr.2.2.2.1, Or.inl rfl⟩)
    · exact hh
  have h2 : heap_settled
      (if ae.pathname = "+MANIFEST".toList then
        c.pkg_parse_manifest
          (if ae.pathname = "+DESC".toList then
            (h.modify p (fun r => { r with desc := sbuf_cat r.desc (c_str ae.data) })).modify p
              (fun r => { r with desc := sbuf_finish r.desc })
          else h) p (c_str ae.data)
      else
        (if ae.pathname = "+DESC".toList then
          (h.modify p (fun r => { r with desc := sbuf_cat r.desc (c_str ae.data) })).modify p
            (fun r => { r with desc := sbuf_finish r.desc })
        else h)) := by
    split
    · exact hparse _ _ _ h1
    · exact h1
  split
  · exact h2
  · exact heap_settled_modify _ _ _ h2 (fun r hr => hr)

theorem heap_settled_open_loop (c : collaborators) (p : Nat)
    (hparse : ∀ h p buf, heap_settled h → heap_settled (c.pkg_parse_manifest h p buf)) :
    ∀ (es : List archive_entry) (h : Heap), heap_settled h →
      heap_settled (pkg_open_loop c p es h) := by
  intro es
  induction es with
  | nil => intro h hh; exact hh
  | cons ae es ih =>
    intro h hh
    simp only [pkg_open_loop]
    exact ih _ (heap_settled_open_entry c p h ae hparse hh)

/-- `pkg_open` keeps the text fields of every record of the heap unset or
set, the record it builds included, when the manifest reader does. -/
theorem heap_settled_open (c : collaborators) (fs : filesystem) (h : Heap) (path : Text)
    (out : Option Nat)
    (hparse : ∀ h p buf, heap_settled h → heap_settled (c.pkg_parse_manifest h p buf))
    (hh : heap_settled h) : heap_settled (pkg_open c fs h path out).heap := by
  cases hopen : pkg_open_source c fs path with
  | none => simp only [pkg_open, hopen]; exact hh
  | some a =>
    rw [pkg_open_some c fs h path out a hopen]
    refine heap_settled_open_loop c _ hparse _ _ ?_
    unfold pkg_open_init
    simp only []
    refine heap_settled_modify _ _ _ ?_ (fun r hr => hr)
    refine heap_settled_modify _ _ _ ?_ (fun r hr => hr)
    refine heap_settled_modify _ _ _ ?_ (fun r hr => hr)
    refine heap_settled_modify _ _ _ ?_ (fun r hr => hr)
    exact heap_settled_new h hh

/-- A heap with no records satisfies the invariant. -/
theorem heap_settled_empty : heap_settled heap_empty := by
  intro a r hr
  simp [heap_empty, Heap.read] at hr

/-- On every record reached from a new record by any sequence of setter and
adder calls, each setter returns 0 and the matching accessor then reads
exactly the text that was set. -/
theorem set_then_read_after_calls (ps ss : Nat) (cs : List call) (t : Text) :
    ((pkg_setname (run_calls ps ss cs pkg_calloc).2 (some t)).1 = 0
      ∧ pkg_name (pkg_setname (run_calls ps ss cs pkg_calloc).2 (some t)).2 = some t)
    ∧ ((pkg_setversion (run_calls ps ss cs pkg_calloc).2 (some t)).1 = 0
      ∧ pkg_version (pkg_setversion (run_calls ps ss cs pkg_calloc).2 (some t)).2 = some t)
    ∧ ((pkg_setorigin (run_calls ps ss cs pkg_calloc).2 (some t)).1 = 0
      ∧ pkg_origin (pkg_setorigin (run_calls ps ss cs pkg_calloc).2 (some t)).2 = some t)
    ∧ ((pkg_setcomment (run_calls ps ss cs pkg_calloc).2 (some t)).1 = 0
      ∧ pkg_comment (pkg_setcomment (run_calls ps ss cs pkg_calloc).2 (some t)).2 = some t)
    ∧ ((pkg_setdesc (run_calls ps ss cs pkg_calloc).2 (some t)).1 = 0
      ∧ pkg_desc (pkg_setdesc (run_calls ps ss cs pkg_calloc).2 (some t)).2 = some t) := by
  obtain ⟨h1, h2, h3, h4, h5⟩ :=
    texts_settled_run_calls ps ss cs pkg_calloc texts_settled_calloc
  refine ⟨?_, ?_, ?_, ?_, ?_⟩
  · rcases h1 with h | h <;> simp [pkg_setname_some, pkg_name, sbuf_data, h]
  · rcases h2 with h | h <;> simp [pkg_setversion_some, pkg_version, sbuf_data, h]
  · rcases h3 with h | h <;> simp [pkg_setorigin_some, pkg_origin, sbuf_data, h]
  · rcases h4 with h | h <;> simp [pkg_setcomment_some, pkg_comment, sbuf_data, h]
  · rcases h5 with h | h <;> simp [pkg_setdesc_some, pkg_desc, sbuf_data, h]

end Libpkg
